import Mathlib

/-!
Verification development for the Supernote ↔ Apple Reminders sync tool.

The Python sources are embedded shallowly:

* Python `str` values are lists of Unicode code points (`PyStr := List Nat`),
  because Python strings admit lone surrogates that Lean `Char` rejects.
* Python `datetime` values are modelled at second resolution as a wall-clock
  reading (`naive`, seconds relative to the Unix epoch) together with an
  optional `tzinfo` UTC offset; `replace(tzinfo=None)` drops the offset and
  keeps the wall-clock reading, exactly as in CPython.  The engine only ever
  compares datetimes that are both naive or both aware.
* Machine-level arithmetic (SHA-256) is done on `Nat` with explicit `% 2^32`.
* The MariaDB / EventKit adapters are external processes; following the
  adapter contract of the specification (§6.1), executing a sync action
  against a store is modelled as applying the action's task value to the
  store.  Task "objects" are threaded by value: a `SyncAction` captures the
  task value at the moment the action is built, which coincides with the
  Python object semantics whenever no two tasks or records share a system id.
-/

set_option maxRecDepth 100000

namespace SyncSpec

/-- Python text: a list of Unicode code points. -/
abbrev PyStr := List Nat

/-- Embed a Lean string literal as Python text. -/
def s2p (s : String) : PyStr := s.toList.map Char.toNat

/-- Python `str.strip()` whitespace test, modelled for the ASCII range
(space, tab, newline, carriage return, vertical tab, form feed). -/
def isPySpace (c : Nat) : Bool :=
  c == 32 || c == 9 || c == 10 || c == 13 || c == 11 || c == 12

/-- Python `str.strip()`. -/
def pyStrip (l : PyStr) : PyStr :=
  ((l.dropWhile isPySpace).reverse.dropWhile isPySpace).reverse

/-- Python `str.lower()`, modelled for the ASCII range (the sync engine only
lowercases titles for case-insensitive comparison). -/
def pyLowerChar (c : Nat) : Nat := if 65 ≤ c && c ≤ 90 then c + 32 else c

/-- Python `str.lower()` on a whole string. -/
def pyLower (l : PyStr) : PyStr := l.map pyLowerChar

/-! ## `json.dumps(content, sort_keys=True)`

`UnifiedTask.content_hash` serialises a five-field dict with `json.dumps`
under `sort_keys=True` and default separators.  CPython's `json` module with
the default `ensure_ascii=True` escapes `"` and `\`, uses the two-character
escapes for BS/TAB/LF/FF/CR, and turns every other code point below U+0020 or
above U+007E into `\uXXXX` (as a surrogate pair beyond U+FFFF), with
lowercase hex digits.  The output is pure ASCII, so its UTF-8 encoding is the
byte list of its code points. -/

/-- Byte of the lowercase hex digit for `n % 16`. -/
def hexByteLower (n : Nat) : Nat :=
  if n % 16 < 10 then 48 + n % 16 else 87 + n % 16

/-- The six-byte `\uXXXX` escape of a BMP code point. -/
def u4Escape (c : Nat) : List Nat :=
  [0x5C, 0x75, hexByteLower (c / 4096), hexByteLower (c / 256),
   hexByteLower (c / 16), hexByteLower c]

/-- JSON escape of one code point under `ensure_ascii=True`. -/
def jsonEscapeChar (c : Nat) : List Nat :=
  if c == 0x22 then [0x5C, 0x22]
  else if c == 0x5C then [0x5C, 0x5C]
  else if c == 8 then [0x5C, 0x62]
  else if c == 9 then [0x5C, 0x74]
  else if c == 10 then [0x5C, 0x6E]
  else if c == 12 then [0x5C, 0x66]
  else if c == 13 then [0x5C, 0x72]
  else if c < 0x20 then u4Escape c
  else if c ≤ 0x7E then [c]
  else if c ≤ 0xFFFF then u4Escape c
  else u4Escape (0xD800 + (c - 0x10000) / 0x400) ++
       u4Escape (0xDC00 + (c - 0x10000) % 0x400)

/-- A JSON string literal (ASCII bytes). -/
def jsonStr (s : PyStr) : List Nat :=
  0x22 :: s.flatMap jsonEscapeChar ++ [0x22]

/-- ASCII bytes of a Lean string (used for fixed ASCII tokens). -/
def asciiBytes (s : String) : List Nat := s.toList.map Char.toNat

/-- `"key": ` for a fixed ASCII key. -/
def jsonKey (k : String) : List Nat := jsonStr (asciiBytes k) ++ [0x3A, 0x20]

/-- A JSON boolean. -/
def jsonBool (b : Bool) : List Nat :=
  if b then asciiBytes "true" else asciiBytes "false"

/-- A JSON integer (Python `int` repr and Lean `Int` repr agree). -/
def jsonInt (i : Int) : List Nat := asciiBytes (toString i)

/-- `json.dumps({"title": …, "notes": …, "category": …, "completed": …,
"priority": …}, sort_keys=True)` as its ASCII byte list; the sorted key
order is category, completed, notes, priority, title. -/
def dumpsContent (title notes category : PyStr) (completed : Bool)
    (priority : Int) : List Nat :=
  [0x7B] ++
  jsonKey "category" ++ jsonStr category ++ [0x2C, 0x20] ++
  jsonKey "completed" ++ jsonBool completed ++ [0x2C, 0x20] ++
  jsonKey "notes" ++ jsonStr notes ++ [0x2C, 0x20] ++
  jsonKey "priority" ++ jsonInt priority ++ [0x2C, 0x20] ++
  jsonKey "title" ++ jsonStr title ++
  [0x7D]

/-- UTF-8 encoding of one code point (Python `str.encode()`; the engine only
encodes the ASCII output of `json.dumps`, where this is the identity). -/
def utf8Char (c : Nat) : List Nat :=
  if c < 0x80 then [c]
  else if c < 0x800 then [0xC0 + c / 64, 0x80 + c % 64]
  else if c < 0x10000 then
    [0xE0 + c / 4096, 0x80 + c / 64 % 64, 0x80 + c % 64]
  else
    [0xF0 + c / 262144, 0x80 + c / 4096 % 64, 0x80 + c / 64 % 64,
     0x80 + c % 64]

/-- UTF-8 encoding of Python text. -/
def utf8Encode (s : PyStr) : List Nat := s.flatMap utf8Char

/-! ## SHA-256 (hashlib.sha256), FIPS 180-4, over `Nat` with explicit mod -/

/-- 32-bit right rotation. -/
def rotr (n w : Nat) : Nat := (w >>> n ||| w <<< (32 - n)) % 4294967296

/-- Big sigma 0. -/
def bsig0 (x : Nat) : Nat := rotr 2 x ^^^ rotr 13 x ^^^ rotr 22 x

/-- Big sigma 1. -/
def bsig1 (x : Nat) : Nat := rotr 6 x ^^^ rotr 11 x ^^^ rotr 25 x

/-- Small sigma 0. -/
def ssig0 (x : Nat) : Nat := rotr 7 x ^^^ rotr 18 x ^^^ (x >>> 3)

/-- Small sigma 1. -/
def ssig1 (x : Nat) : Nat := rotr 17 x ^^^ rotr 19 x ^^^ (x >>> 10)

/-- Choose. -/
def shaCh (x y z : Nat) : Nat := (x &&& y) ^^^ ((x ^^^ 0xFFFFFFFF) &&& z)

/-- Majority. -/
def shaMaj (x y z : Nat) : Nat := (x &&& y) ^^^ (x &&& z) ^^^ (y &&& z)

/-- The 64 SHA-256 round constants (FIPS 180-4 §4.2.2, in decimal). -/
def K256 : List Nat :=
  [1116352408, 1899447441, 3049323471, 3921009573, 961987163, 1508970993,
   2453635748, 2870763221, 3624381080, 310598401, 607225278, 1426881987,
   1925078388, 2162078206, 2614888103, 3248222580, 3835390401, 4022224774,
   264347078, 604807628, 770255983, 1249150122, 1555081692, 1996064986,
   2554220882, 2821834349, 2952996808, 3210313671, 3336571891, 3584528711,
   113926993, 338241895, 666307205, 773529912, 1294757372, 1396182291,
   1695183700, 1986661051, 2177026350, 2456956037, 2730485921, 2820302411,
   3259730800, 3345764771, 3516065817, 3600352804, 4094571909, 275423344,
   430227734, 506948616, 659060556, 883997877, 958139571, 1322822218,
   1537002063, 1747873779, 1955562222, 2024104815, 2227730452, 2361852424,
   2428436474, 2756734187, 3204031479, 3329325298]

/-- SHA-256 working state: eight 32-bit words. -/
structure ShaState where
  a : Nat
  b : Nat
  c : Nat
  d : Nat
  e : Nat
  f : Nat
  g : Nat
  h : Nat
deriving Repr, DecidableEq

/-- The SHA-256 initial hash value (FIPS 180-4 §5.3.3, in decimal). -/
def shaInit : ShaState :=
  ⟨1779033703, 3144134277, 1013904242, 2773480762,
   1359893119, 2600822924, 528734635, 1541459225⟩

/-- Big-endian eight-byte encoding of a length in bits. -/
def lenBe8 (n : Nat) : List Nat :=
  [n / 2 ^ 56 % 256, n / 2 ^ 48 % 256, n / 2 ^ 40 % 256, n / 2 ^ 32 % 256,
   n / 2 ^ 24 % 256, n / 2 ^ 16 % 256, n / 2 ^ 8 % 256, n % 256]

/-- SHA-256 padding: `0x80`, zeros to 56 mod 64, then the bit length. -/
def shaPad (msg : List Nat) : List Nat :=
  msg ++ [0x80] ++ List.replicate ((119 - msg.length % 64) % 64) 0 ++
    lenBe8 (8 * msg.length)

/-- Split a byte list into 64-byte blocks (fuel-based structural recursion so
that the kernel can evaluate it; `chunk64` always supplies enough fuel). -/
def chunk64Go : Nat → List Nat → List (List Nat)
  | _, [] => []
  | 0, _ => []
  | fuel + 1, l => l.take 64 :: chunk64Go fuel (l.drop 64)

/-- Split a byte list into 64-byte blocks. -/
def chunk64 (l : List Nat) : List (List Nat) := chunk64Go l.length l

/-- Big-endian 32-bit word `i` of a block. -/
def beWord (b : List Nat) (i : Nat) : Nat :=
  b.getD (4 * i) 0 * 16777216 + b.getD (4 * i + 1) 0 * 65536 +
    b.getD (4 * i + 2) 0 * 256 + b.getD (4 * i + 3) 0

/-- The sixteen message words of a block. -/
def blockWords (b : List Nat) : List Nat := (List.range 16).map (beWord b)

/-- Extend sixteen message words to the 64-entry message schedule. -/
def extendWords (w : List Nat) : List Nat :=
  (List.range 48).foldl
    (fun ws i =>
      ws ++ [(ssig1 (ws.getD (i + 14) 0) + ws.getD (i + 9) 0 +
              ssig0 (ws.getD (i + 1) 0) + ws.getD i 0) % 4294967296])
    w

/-- One SHA-256 round with constant `k` and schedule word `w`. -/
def shaRound (s : ShaState) (kw : Nat × Nat) : ShaState :=
  let t1 := (s.h + bsig1 s.e + shaCh s.e s.f s.g + kw.1 + kw.2) % 4294967296
  let t2 := (bsig0 s.a + shaMaj s.a s.b s.c) % 4294967296
  ⟨(t1 + t2) % 4294967296, s.a, s.b, s.c, (s.d + t1) % 4294967296,
   s.e, s.f, s.g⟩

/-- Compress one 64-byte block into the running hash. -/
def shaCompress (H : ShaState) (block : List Nat) : ShaState :=
  let w := extendWords (blockWords block)
  let s := (K256.zip w).foldl shaRound H
  ⟨(H.a + s.a) % 4294967296, (H.b + s.b) % 4294967296,
   (H.c + s.c) % 4294967296, (H.d + s.d) % 4294967296,
   (H.e + s.e) % 4294967296, (H.f + s.f) % 4294967296,
   (H.g + s.g) % 4294967296, (H.h + s.h) % 4294967296⟩

/-- SHA-256 of a byte list, as the final eight-word state. -/
def sha256 (msg : List Nat) : ShaState :=
  (chunk64 (shaPad msg)).foldl shaCompress shaInit

/-- Lowercase hex digit character for `n % 16`. -/
def hexChar (n : Nat) : Char :=
  "0123456789abcdef".toList.getD (n % 16) '0'

/-- The eight lowercase hex characters of a 32-bit word, most significant
nibble first. -/
def word8hex (w : Nat) : List Char :=
  [7, 6, 5, 4, 3, 2, 1, 0].map (fun i => hexChar (w / 16 ^ i))

/-- `hashlib.sha256(msg).hexdigest()` as a character list (64 characters). -/
def sha256hexChars (msg : List Nat) : List Char :=
  let d := sha256 msg
  word8hex d.a ++ word8hex d.b ++ word8hex d.c ++ word8hex d.d ++
  word8hex d.e ++ word8hex d.f ++ word8hex d.g ++ word8hex d.h

/-! ## Python `datetime`, at second resolution -/

/-- A Python `datetime`: the wall-clock reading `naive` (seconds relative to
the Unix epoch) plus the `tzinfo` UTC offset when the value is aware.
`datetime.now()` is modelled with the process-local UTC offset taken as 0. -/
structure PyDateTime where
  naive : Int
  off : Option Int
deriving Repr, DecidableEq

namespace PyDateTime

/-- `d.replace(tzinfo=None)`: keep the wall-clock reading, drop the offset. -/
def replaceTzNone (d : PyDateTime) : PyDateTime := ⟨d.naive, none⟩

/-- The instant a datetime denotes: aware values subtract their offset, naive
values are compared by their wall-clock reading.  Python comparisons and
subtraction between two naive or two aware datetimes agree with comparing
these keys; the engine never compares a naive with an aware value. -/
def key (d : PyDateTime) : Int :=
  match d.off with
  | none => d.naive
  | some o => d.naive - o

/-- Python `a < b` on datetimes. -/
def lt (a b : PyDateTime) : Bool := a.key < b.key

/-- Python `a >= b` on datetimes. -/
def ge (a b : PyDateTime) : Bool := b.key ≤ a.key

/-- `(a - b).total_seconds()` for two datetimes of the same kind. -/
def diffSeconds (a b : PyDateTime) : Int := a.key - b.key

/-- `d.timestamp()` for a naive datetime (interpreted in the process-local
zone, modelled as UTC+0); only its ordering is ever used. -/
def timestamp (d : PyDateTime) : Int := d.naive

end PyDateTime

/-- `datetime.min`: naive 0001-01-01T00:00:00. -/
def pyDatetimeMin : PyDateTime := ⟨-62135596800, none⟩

/-- `datetime.now(tz)` given the current Unix time: naive local reading when
`tz` is absent (local zone modelled as UTC+0), aware otherwise. -/
def pyNow (nowUtc : Int) (tz : Option Int) : PyDateTime :=
  match tz with
  | none => ⟨nowUtc, none⟩
  | some o => ⟨nowUtc + o, some o⟩

/-! ## models.py -/

/-- `DocumentLink` (models.py): a Supernote document pointer. -/
structure DocumentLink where
  app_name : PyStr
  file_id : PyStr
  file_path : PyStr
  page : Int
  page_id : PyStr
deriving Repr, DecidableEq

/-- `UnifiedTask` (models.py): the normalised task representation. -/
structure UnifiedTask where
  sync_id : PyStr
  title : PyStr
  notes : PyStr
  category : PyStr
  completed : Bool
  completion_date : Option PyDateTime
  due_date : Option PyDateTime
  priority : Int
  created_at : Option PyDateTime
  modified_at : Option PyDateTime
  supernote_id : Option PyStr
  apple_id : Option PyStr
  document_link : Option DocumentLink
  status : String
deriving Repr, DecidableEq

namespace UnifiedTask

/-- `UnifiedTask.content_hash`: the first 16 hex characters of the SHA-256 of
`json.dumps({title, notes, category, completed, priority}, sort_keys=True)`
encoded as UTF-8. -/
def content_hash (t : UnifiedTask) : String :=
  ⟨(sha256hexChars (utf8Encode
      (dumpsContent t.title t.notes t.category t.completed t.priority))).take 16⟩

/-- `UnifiedTask.map_priority_to_apple`. -/
def map_priority_to_apple (t : UnifiedTask) : Int :=
  if t.priority == 0 then 0
  else if t.priority ≤ 3 then 9
  else if t.priority ≤ 6 then 5
  else 1

/-- `UnifiedTask.map_priority_from_apple` (static). -/
def map_priority_from_apple (apple_priority : Int) : Int :=
  if apple_priority == 0 then 0
  else if 6 ≤ apple_priority then 1
  else if apple_priority == 5 then 5
  else 9

end UnifiedTask

/-- `SyncRecord` (models.py): one row of the sync-state store. -/
structure SyncRecord where
  sync_id : PyStr
  apple_id : Option PyStr
  supernote_id : Option PyStr
  last_synced_hash : String
  last_sync_time : Int
  source_system : String
deriving Repr, DecidableEq

/-- `SyncAction` (models.py): one pending sync operation. -/
structure SyncAction where
  action : String
  target_system : String
  task : UnifiedTask
  reason : String
deriving Repr, DecidableEq

/-- A task value with every field at its blank/default value; concrete states
below override the fields they care about. -/
def blankTask : UnifiedTask :=
  { sync_id := [], title := [], notes := [], category := s2p "Inbox"
    completed := false, completion_date := none, due_date := none
    priority := 0, created_at := none, modified_at := none
    supernote_id := none, apple_id := none, document_link := none
    status := "needsAction" }

/-! ## supernote_db.py: emoji sentinel codec and notes preparation -/

/-- Uppercase hex digit code point for `m < 16`. -/
def hexUpperDigit (m : Nat) : Nat := if m < 10 then 48 + m else 55 + m

/-- Fuel-based digits of `n` in uppercase hex, most significant first
(`n` itself is always enough fuel). -/
def toHexUpperAux : Nat → Nat → PyStr
  | 0, _ => []
  | fuel + 1, n =>
    if n = 0 then [] else toHexUpperAux fuel (n / 16) ++ [hexUpperDigit (n % 16)]

/-- Python `f"{n:X}"`: unpadded uppercase hex. -/
def toHexUpper (n : Nat) : PyStr := if n = 0 then [0x30] else toHexUpperAux n n

/-- The characters the regex class `[0-9A-Fa-f]` accepts. -/
def isHexDigitByte (c : Nat) : Bool :=
  (48 ≤ c && c ≤ 57) || (65 ≤ c && c ≤ 70) || (97 ≤ c && c ≤ 102)

/-- Value of one hex digit (`int(…, 16)` digit semantics). -/
def hexVal (c : Nat) : Nat :=
  if c ≤ 57 then c - 48 else if c ≤ 70 then c - 55 else c - 87

/-- `int(h, 16)` on a digit string. -/
def parseHexNat (l : PyStr) : Nat := l.foldl (fun acc c => 16 * acc + hexVal c) 0

/-- The sentinel text `[U+<hx>]` around a digit string. -/
def sentinelText (hx : PyStr) : PyStr := 0x5B :: 0x55 :: 0x2B :: (hx ++ [0x5D])

/-- `_encode_emoji` (supernote_db.py): every code point above the BMP is
replaced by the sentinel `[U+HEX]`; everything else is copied. -/
def encode_emoji (s : PyStr) : PyStr :=
  s.flatMap (fun c => if 0xFFFF < c then sentinelText (toHexUpper c) else [c])

/-- One leftmost attempt of the regex `\[U\+([0-9A-Fa-f]+)\]` at the head of
the text: on success, the captured digits and the text after the match.
`[0-9A-Fa-f]+` is greedy and the character after any shorter digit run is
another digit, so backtracking never helps: the match succeeds exactly when
the maximal digit run is non-empty and followed by `]`. -/
def matchSentinel (l : PyStr) : Option (PyStr × PyStr) :=
  match l with
  | a :: b :: c :: rest2 =>
    if a = 0x5B ∧ b = 0x55 ∧ c = 0x2B ∧
        rest2.takeWhile isHexDigitByte ≠ [] ∧
        rest2.dropWhile isHexDigitByte ≠ [] ∧
        (rest2.dropWhile isHexDigitByte).headD 0 = 0x5D then
      some (rest2.takeWhile isHexDigitByte,
            (rest2.dropWhile isHexDigitByte).tail)
    else none
  | _ => none

/-- `re.sub(r'\[U\+([0-9A-Fa-f]+)\]', replace_unicode, text)` of
`_decode_emoji`: scan left to right; a match is replaced by `chr(int(h,16))`
when that is a valid code point (`chr` raises `ValueError`/`OverflowError`
above 0x10FFFF, and the replacement then returns the match unchanged), and
scanning resumes after the match.  Fuel-based so the kernel can evaluate it;
one unit of fuel per emitted head suffices, so `length` is enough fuel. -/
def decodeAux : Nat → PyStr → PyStr
  | _, [] => []
  | 0, l => l
  | fuel + 1, c :: rest =>
    match matchSentinel (c :: rest) with
    | some (hx, rest4) =>
      (if parseHexNat hx ≤ 0x10FFFF then [parseHexNat hx] else sentinelText hx) ++
        decodeAux fuel rest4
    | none => c :: decodeAux fuel rest

/-- `_decode_emoji` (supernote_db.py).  The early return when `"[U+"` does
not occur in the text coincides with running the substitution, which then
finds no match. -/
def decode_emoji (s : PyStr) : PyStr := decodeAux s.length s

/-- Notes preparation shared by `SupernoteDB.create_task` and
`SupernoteDB.update_task`: `_encode_emoji(task.notes or "")[:255]` — encode
first, then truncate with a Python slice, which counts characters. -/
def supernoteStoredNotes (notes : PyStr) : PyStr := (encode_emoji notes).take 255

/-! ## apple_reminders.py / sync_state.py helpers -/

/-- `normalize_apple_id` on a known-nonempty id: strip the
`x-apple-reminder://` scheme. -/
def normalizeAppleIdStr (l : PyStr) : PyStr :=
  if l.take 19 = s2p "x-apple-reminder://" then l.drop 19 else l

/-- `normalize_apple_id` (apple_reminders.py): `None` and the empty string
map to `None`; otherwise the URI scheme is stripped. -/
def normalize_apple_id : Option PyStr → Option PyStr
  | none => none
  | some l => if l = [] then none else some (normalizeAppleIdStr l)

/-- `SyncState.get_by_supernote_id`: first stored record carrying the id. -/
def get_by_supernote_id (db : List SyncRecord) (sid : PyStr) : Option SyncRecord :=
  db.find? (fun r => r.supernote_id == some sid)

/-- `SyncState.get_by_apple_id`: first stored record carrying the id. -/
def get_by_apple_id (db : List SyncRecord) (aid : PyStr) : Option SyncRecord :=
  db.find? (fun r => r.apple_id == some aid)

/-- `SyncState.upsert_record`: SQLite `INSERT OR REPLACE` keyed by
`sync_id` (a replaced row is re-inserted at the end of the table). -/
def upsert_record (db : List SyncRecord) (r : SyncRecord) : List SyncRecord :=
  db.filter (fun x => ¬ x.sync_id == r.sync_id) ++ [r]

/-- `SyncState.delete_record`. -/
def delete_record (db : List SyncRecord) (sid : PyStr) : List SyncRecord :=
  db.filter (fun x => ¬ x.sync_id == sid)

/-- Python `dict` as an insertion-ordered association list: assignment
overwrites in place or appends. -/
def alInsert {κ ν : Type} [BEq κ] (m : List (κ × ν)) (k : κ) (v : ν) :
    List (κ × ν) :=
  if m.any (fun p => p.1 == k) then
    m.map (fun p => if p.1 == k then (k, v) else p)
  else m ++ [(k, v)]

/-- Python `dict.get` / `d[k]` lookup. -/
def alGet {κ ν : Type} [BEq κ] (m : List (κ × ν)) (k : κ) : Option ν :=
  (m.find? (fun p => p.1 == k)).map (fun p => p.2)

/-! ## sync_engine.py -/

/-- `COMPLETED_TASK_MAX_AGE_DAYS` (sync_engine.py). -/
def COMPLETED_TASK_MAX_AGE_DAYS : Int := 180

/-- `DEDUPE_REPEATING_TASKS` (sync_engine.py). -/
def DEDUPE_REPEATING_TASKS : Bool := true

/-- The `completed_rank` component of `_dedupe_apple_tasks.sort_key`:
incomplete 0 sorts before completed 1. -/
def completedRank (t : UnifiedTask) : Nat := if t.completed then 1 else 0

/-- The date feeding `sort_key`: `t.due_date or t.modified_at`, stripped to
naive and read as a timestamp (only its order is used). -/
def dedupeDate (t : UnifiedTask) : Option Int :=
  match t.due_date with
  | some d => some d.replaceTzNone.timestamp
  | none =>
    match t.modified_at with
    | some d => some d.replaceTzNone.timestamp
    | none => none

/-- Order on the `date_key` component `-timestamp` (absent dates are
`float('inf')`, sorting last). -/
def dateKeyLE : Option Int → Option Int → Bool
  | some x, some y => y ≤ x
  | some _, none => true
  | none, some _ => false
  | none, none => true

/-- `sort_key(a) ≤ sort_key(b)`: the lexicographic tuple
`(completed_rank, date_key)` of `_dedupe_apple_tasks`. -/
def dedupeLE (a b : UnifiedTask) : Bool :=
  completedRank a < completedRank b ||
    (completedRank a == completedRank b &&
      dateKeyLE (dedupeDate a) (dedupeDate b))

/-- The sort comparison as a decidable relation for `insertionSort` (a
stable ascending sort, extensionally Python's stable `list.sort`). -/
def dedupeRel (a b : UnifiedTask) : Prop := dedupeLE a b = true

instance : DecidableRel dedupeRel := fun a b =>
  inferInstanceAs (Decidable (dedupeLE a b = true))

/-- One title group of `_dedupe_apple_tasks`: a single instance is kept
as is, a larger group is sorted by `sort_key` and its best (first) member
retained. -/
def dedupeGroup (g : List UnifiedTask) : List UnifiedTask :=
  if g.length = 1 then g
  else
    match List.insertionSort dedupeRel g with
    | [] => []
    | best :: _ => [best]

/-- First occurrences, in order, of a list of keys (the key order of a
Python `dict` built by insertion). -/
def firstOccs (l : List PyStr) : List PyStr :=
  l.foldl (fun acc t => if t ∈ acc then acc else acc ++ [t]) []

/-- `SyncEngine._dedupe_apple_tasks`: group by stripped title in first-seen
order (a `dict` of lists in the source, expressed here as filtering the
input per distinct title, which builds the same groups in the same order)
and keep one best instance per group. -/
def dedupe_apple_tasks (tasks : List UnifiedTask) : List UnifiedTask :=
  if DEDUPE_REPEATING_TASKS then
    (firstOccs (tasks.map (fun t => pyStrip t.title))).flatMap
      (fun tt => dedupeGroup (tasks.filter (fun t => pyStrip t.title == tt)))
  else tasks

/-- `SyncEngine._should_skip_old_completed_task`: skip a completed task with
no sync record whose completion date lies more than 180 days before
`datetime.now(task.completion_date.tzinfo)`. -/
def should_skip_old_completed_task (nowUtc : Int) (task : UnifiedTask)
    (has_sync_record : Bool) : Bool :=
  if ¬ task.completed then false
  else if has_sync_record then false
  else
    match task.completion_date with
    | some cd =>
      let nowDt := pyNow nowUtc cd.off
      let cutoff : PyDateTime :=
        ⟨nowDt.naive - COMPLETED_TASK_MAX_AGE_DAYS * 86400, nowDt.off⟩
      cd.lt cutoff
    | none => false

/-- `SyncEngine._index_by_system_id` for `source == "supernote"`: attach the
`sync_id` of the first record carrying each task's `supernote_id` and index
the tasks by that id; tasks with a falsy id are left out of the index.
Returns the (value-threaded) task list and the index. -/
def index_by_system_id_supernote (db : List SyncRecord)
    (tasks : List UnifiedTask) :
    List UnifiedTask × List (PyStr × UnifiedTask) :=
  tasks.foldl
    (fun acc task =>
      match task.supernote_id with
      | some sid =>
        if sid = [] then (acc.1 ++ [task], acc.2)
        else
          let task' :=
            match get_by_supernote_id db sid with
            | some r => { task with sync_id := r.sync_id }
            | none => task
          (acc.1 ++ [task'], alInsert acc.2 sid task')
      | none => (acc.1 ++ [task], acc.2))
    ([], [])

/-- `SyncEngine._index_by_system_id` for `source == "apple"`: ids are
normalised before lookup and indexing. -/
def index_by_system_id_apple (db : List SyncRecord)
    (tasks : List UnifiedTask) :
    List UnifiedTask × List (PyStr × UnifiedTask) :=
  tasks.foldl
    (fun acc task =>
      match task.apple_id with
      | some aid =>
        if aid = [] then (acc.1 ++ [task], acc.2)
        else
          let nid := normalizeAppleIdStr aid
          let task' :=
            match get_by_apple_id db nid with
            | some r => { task with sync_id := r.sync_id }
            | none => task
          (acc.1 ++ [task'], alInsert acc.2 nid task')
      | none => (acc.1 ++ [task], acc.2))
    ([], [])

/-- `SyncEngine._match_by_title`: map each Supernote task's stripped,
lowercased title against the Apple tasks grouped the same way; a pair is
recorded only when exactly one Apple task carries the title.  The result is
the `matches` dict `supernote_id → apple_id` in insertion order. -/
def matchTitleStep (apple_tasks : List UnifiedTask)
    (m : List (Option PyStr × Option PyStr)) (sn : UnifiedTask) :
    List (Option PyStr × Option PyStr) :=
  let tt := pyLower (pyStrip sn.title)
  match apple_tasks.filter (fun t => pyLower (pyStrip t.title) == tt) with
  | [a] => alInsert m sn.supernote_id a.apple_id
  | _ => m

/-- The match dict as a fold of `matchTitleStep` over the Supernote
tasks. -/
def match_by_title (supernote_tasks apple_tasks : List UnifiedTask) :
    List (Option PyStr × Option PyStr) :=
  supernote_tasks.foldl (matchTitleStep apple_tasks) []

/-- The field copy of `_resolve_conflict` when the Apple side wins: write
Apple's content onto the Supernote task, preserving the Supernote document
link and native id. -/
def copyAppleOntoSupernote (apple_task supernote_task : UnifiedTask) :
    UnifiedTask :=
  { supernote_task with
    sync_id := apple_task.sync_id
    apple_id := apple_task.apple_id
    title := apple_task.title
    notes := apple_task.notes
    completed := apple_task.completed
    due_date := apple_task.due_date
    priority := apple_task.priority
    category := apple_task.category }

/-- The field copy of `_resolve_conflict` when the Supernote side wins:
write Supernote's content (document link included) onto the Apple task. -/
def copySupernoteOntoApple (apple_task supernote_task : UnifiedTask) :
    UnifiedTask :=
  { apple_task with
    sync_id := supernote_task.sync_id
    supernote_id := supernote_task.supernote_id
    title := supernote_task.title
    notes := supernote_task.notes
    completed := supernote_task.completed
    due_date := supernote_task.due_date
    priority := supernote_task.priority
    category := supernote_task.category
    document_link := supernote_task.document_link }

/-- `last_hash = record.last_synced_hash if record else ""`. -/
def recLastHash : Option SyncRecord → String
  | some r => r.last_synced_hash
  | none => ""

/-- `SyncEngine._resolve_conflict`. -/
def resolve_conflict (apple_task supernote_task : UnifiedTask)
    (record : Option SyncRecord) : Option SyncAction :=
  let apple_hash := apple_task.content_hash
  let supernote_hash := supernote_task.content_hash
  let last_hash := recLastHash record
  if apple_hash = supernote_hash then none
  else if apple_hash = last_hash ∧ supernote_hash = last_hash then none
  else if apple_hash ≠ last_hash ∧ ¬ supernote_hash ≠ last_hash then
    some ⟨"update", "supernote", copyAppleOntoSupernote apple_task supernote_task,
          "Changed in Apple Reminders"⟩
  else if supernote_hash ≠ last_hash ∧ ¬ apple_hash ≠ last_hash then
    some ⟨"update", "apple", copySupernoteOntoApple apple_task supernote_task,
          "Changed in Supernote"⟩
  else
    let apple_mod := match apple_task.modified_at with
      | some d => d.replaceTzNone
      | none => pyDatetimeMin
    let supernote_mod := match supernote_task.modified_at with
      | some d => d.replaceTzNone
      | none => pyDatetimeMin
    let time_diff := |apple_mod.diffSeconds supernote_mod|
    if time_diff < 60 ∨ apple_mod.ge supernote_mod then
      some ⟨"update", "supernote", copyAppleOntoSupernote apple_task supernote_task,
            "Conflict: Apple Reminders wins (more recent)"⟩
    else
      some ⟨"update", "apple", copySupernoteOntoApple apple_task supernote_task,
            "Conflict: Supernote wins (more recent)"⟩

/-- Deterministic replacement for `uuid.uuid4()`: the engine only needs
freshness, provided by a supply indexed by a threaded counter. -/
structure RunEnv where
  nowUtc : Int
  uuid : Nat → PyStr

/-- Membership of an optional system id in a matched-id set (`None` is
never a member, as in Python). -/
def optMem (s : List PyStr) (o : Option PyStr) : Bool :=
  match o with
  | some x => s.contains x
  | none => false

/-- Add a record's optional id to a matched-id set. -/
def optAdd (s : List PyStr) (o : Option PyStr) : List PyStr :=
  match o with
  | some x => x :: s
  | none => s

/-- Accumulator of `_detect_changes`: actions, matched-id sets, the
sync-state table (step 2 upserts records immediately) and the uuid
counter. -/
structure DetectSt where
  actions : List SyncAction
  matchedApple : List PyStr
  matchedSupernote : List PyStr
  db : List SyncRecord
  fresh : Nat

/-- The Apple-side task a sync record resolves to: a falsy or unindexed id
is absent. -/
def recLookupA (apple_by_id : List (PyStr × UnifiedTask))
    (record : SyncRecord) : Option UnifiedTask :=
  match record.apple_id with
  | some aid => if aid = [] then none else alGet apple_by_id aid
  | none => none

/-- The Supernote-side task a sync record resolves to. -/
def recLookupS (supernote_by_id : List (PyStr × UnifiedTask))
    (record : SyncRecord) : Option UnifiedTask :=
  match record.supernote_id with
  | some sid => if sid = [] then none else alGet supernote_by_id sid
  | none => none

/-- One iteration of step 1 of `_detect_changes`: pair or delete by the
stored ids of a single sync record.  A record whose id is falsy or unknown
on one side treats that side as absent. -/
def detect1Step (apple_by_id supernote_by_id : List (PyStr × UnifiedTask))
    (st : DetectSt) (record : SyncRecord) : DetectSt :=
  match recLookupA apple_by_id record, recLookupS supernote_by_id record with
  | some a, some s =>
    let a' := { a with sync_id := record.sync_id }
    let s' := { s with sync_id := record.sync_id }
    { st with
      matchedApple := optAdd st.matchedApple record.apple_id
      matchedSupernote := optAdd st.matchedSupernote record.supernote_id
      actions := st.actions ++ (resolve_conflict a' s' (some record)).toList }
  | some a, none =>
    { st with
      matchedApple := optAdd st.matchedApple record.apple_id
      actions := st.actions ++
        [⟨"delete", "apple", a, "Deleted from Supernote"⟩] }
  | none, some s =>
    { st with
      matchedSupernote := optAdd st.matchedSupernote record.supernote_id
      actions := st.actions ++
        [⟨"delete", "supernote", s, "Deleted from Apple Reminders"⟩] }
  | none, none => st

/-- Step 1 of `_detect_changes`: the record loop. -/
def detectStep1 (apple_by_id supernote_by_id : List (PyStr × UnifiedTask))
    (records : List SyncRecord) (st : DetectSt) : DetectSt :=
  records.foldl (detect1Step apple_by_id supernote_by_id) st

/-- One iteration of step 2 of `_detect_changes`: bootstrap a pair matched
by unique title.  A fresh `sync_id` is issued per pair; when the resolver
requires no action, a sync record for the pair is upserted at once (hash of
the Supernote side).  A dangling id in the matches dict would raise
`KeyError` in the source; such states do not occur, and the model skips the
pair. -/
def detect2Step (env : RunEnv)
    (apple_by_id supernote_by_id : List (PyStr × UnifiedTask))
    (st : DetectSt) (m : Option PyStr × Option PyStr) : DetectSt :=
  match m.1, m.2 with
  | some sid, some aid =>
    match alGet supernote_by_id sid, alGet apple_by_id aid with
    | some supernote_task, some apple_task =>
      match resolve_conflict { apple_task with sync_id := env.uuid st.fresh }
          { supernote_task with sync_id := env.uuid st.fresh } none with
      | some action =>
        { st with
          fresh := st.fresh + 1
          matchedApple := aid :: st.matchedApple
          matchedSupernote := sid :: st.matchedSupernote
          actions := st.actions ++ [action] }
      | none =>
        { st with
          fresh := st.fresh + 1
          matchedApple := aid :: st.matchedApple
          matchedSupernote := sid :: st.matchedSupernote
          db := upsert_record st.db
            ⟨env.uuid st.fresh, some aid, some sid,
             ({ supernote_task with sync_id := env.uuid st.fresh } :
               UnifiedTask).content_hash,
             env.nowUtc, "both"⟩ }
    | _, _ => st
  | _, _ => st

/-- Step 2 of `_detect_changes` as a fold of `detect2Step` over the title
matches. -/
def detectStep2 (env : RunEnv)
    (apple_by_id supernote_by_id : List (PyStr × UnifiedTask))
    (titleMatches : List (Option PyStr × Option PyStr)) (st : DetectSt) : DetectSt :=
  titleMatches.foldl (detect2Step env apple_by_id supernote_by_id) st

/-- One iteration of the first loop of step 3 of `_detect_changes`: a
still-unmatched Apple task that does not fall to the old-completed filter
becomes a `create` on the Supernote side under a fresh `sync_id`. -/
def step3AppleStep (env : RunEnv) (st : DetectSt) (task : UnifiedTask) :
    DetectSt :=
  if ¬ optMem st.matchedApple task.apple_id then
    if should_skip_old_completed_task env.nowUtc task false then st
    else
      { st with
        fresh := st.fresh + 1
        actions := st.actions ++
          [⟨"create", "supernote", { task with sync_id := env.uuid st.fresh },
            "New in Apple Reminders"⟩] }
  else st

/-- First loop of step 3 of `_detect_changes` over the Apple tasks. -/
def detectStep3Apple (env : RunEnv) (apple_tasks : List UnifiedTask)
    (st : DetectSt) : DetectSt :=
  apple_tasks.foldl (step3AppleStep env) st

/-- One iteration of the second loop of step 3: a still-unmatched Supernote
task becomes a `create` on the Apple side. -/
def step3SupernoteStep (env : RunEnv) (st : DetectSt) (task : UnifiedTask) :
    DetectSt :=
  if ¬ optMem st.matchedSupernote task.supernote_id then
    { st with
      fresh := st.fresh + 1
      actions := st.actions ++
        [⟨"create", "apple", { task with sync_id := env.uuid st.fresh },
          "New in Supernote"⟩] }
  else st

/-- Second loop of step 3 over the Supernote tasks. -/
def detectStep3Supernote (env : RunEnv) (supernote_tasks : List UnifiedTask)
    (st : DetectSt) : DetectSt :=
  supernote_tasks.foldl (step3SupernoteStep env) st

/-- Step 3 of `_detect_changes`: remaining unmatched tasks are new; old
completed unpaired Apple tasks are skipped, everything else becomes a
`create` in the other system under a fresh `sync_id`. -/
def detectStep3 (env : RunEnv)
    (supernote_tasks apple_tasks : List UnifiedTask) (st : DetectSt) : DetectSt :=
  detectStep3Supernote env supernote_tasks (detectStep3Apple env apple_tasks st)

/-- `SyncEngine._detect_changes`: the three matching steps over the record
snapshot, then title bootstrap over the unmatched remainder, then creation
of new items. -/
def detect_changes (env : RunEnv) (fresh0 : Nat)
    (supernote_tasks apple_tasks : List UnifiedTask)
    (supernote_by_id apple_by_id : List (PyStr × UnifiedTask))
    (db : List SyncRecord) : DetectSt :=
  let st : DetectSt := ⟨[], [], [], db, fresh0⟩
  let st := detectStep1 apple_by_id supernote_by_id db st
  let unmatched_apple :=
    apple_tasks.filter (fun t => ¬ optMem st.matchedApple t.apple_id)
  let unmatched_supernote :=
    supernote_tasks.filter (fun t => ¬ optMem st.matchedSupernote t.supernote_id)
  let title_matches := match_by_title unmatched_supernote unmatched_apple
  let st := detectStep2 env apple_by_id supernote_by_id title_matches st
  detectStep3 env supernote_tasks apple_tasks st

/-- The two external stores plus the sync-state table. -/
structure SysState where
  supernoteTasks : List UnifiedTask
  appleTasks : List UnifiedTask
  db : List SyncRecord
deriving Repr, DecidableEq

/-- Write a task into the Supernote store (`SupernoteDB.create_task` /
`update_task` through the adapter contract): the row carries the task's
content, `last_modified` is stamped with the current time, and an update
preserves an existing document link when the incoming task has none.
Adapter-level text encoding and truncation are treated per the contract
(§6.1) as faithful storage; they are analysed separately (claims C5/C6). -/
def supernoteStamp (env : RunEnv) (t : UnifiedTask) : UnifiedTask :=
  { t with modified_at := some ⟨env.nowUtc, none⟩ }

/-- Write a task into the Apple store (`AppleReminders.create_reminder` /
`update_reminder`): Apple has no document-link slot (the link lives only as
a readable notes suffix, stripped again on ingress), and EventKit stamps the
modification date. -/
def appleStamp (env : RunEnv) (t : UnifiedTask) : UnifiedTask :=
  { t with document_link := none, modified_at := some ⟨env.nowUtc, none⟩ }

/-- `SyncEngine._update_sync_record`: delete the record of a deleted pair,
otherwise upsert the fresh content hash under the action task's ids. -/
def update_sync_record (env : RunEnv) (action : SyncAction)
    (db : List SyncRecord) : List SyncRecord :=
  if action.action = "delete" then delete_record db action.task.sync_id
  else
    upsert_record db
      ⟨action.task.sync_id, normalize_apple_id action.task.apple_id,
       action.task.supernote_id, action.task.content_hash, env.nowUtc, "both"⟩

/-- `SyncEngine._execute_action` dispatching to
`_execute_supernote_action` / `_execute_apple_action`, then
`_update_sync_record`.  Creates assign a fresh native id (captured into the
action task, hence into the record); updates rewrite the row with the
matching native id; deletes remove it. -/
def execute_action (env : RunEnv) (acc : SysState × Nat) (action : SyncAction) :
    SysState × Nat :=
  let st := acc.1
  let fresh := acc.2
  if action.target_system = "supernote" then
    if action.action = "create" then
      let needsId := action.task.supernote_id = none ∨ action.task.supernote_id = some []
      let task := if needsId then
          { action.task with supernote_id := some (env.uuid fresh) }
        else action.task
      let st := { st with
        supernoteTasks := st.supernoteTasks ++ [supernoteStamp env task]
        db := update_sync_record env { action with task := task } st.db }
      (st, fresh + 1)
    else if action.action = "update" then
      let stored := fun t : UnifiedTask =>
        if t.supernote_id == action.task.supernote_id then
          supernoteStamp env
            { action.task with
              document_link :=
                match action.task.document_link, t.document_link with
                | none, some l => some l
                | dl, _ => dl }
        else t
      let st := { st with
        supernoteTasks := st.supernoteTasks.map stored
        db := update_sync_record env action st.db }
      (st, fresh)
    else
      let st := { st with
        supernoteTasks :=
          match action.task.supernote_id with
          | some sid =>
            if sid = [] then st.supernoteTasks
            else st.supernoteTasks.filter (fun t => ¬ t.supernote_id == some sid)
          | none => st.supernoteTasks
        db := update_sync_record env action st.db }
      (st, fresh)
  else
    if action.action = "create" then
      let task := { action.task with apple_id := some (env.uuid fresh) }
      let st := { st with
        appleTasks := st.appleTasks ++ [appleStamp env task]
        db := update_sync_record env { action with task := task } st.db }
      (st, fresh + 1)
    else if action.action = "update" then
      let st := { st with
        appleTasks := st.appleTasks.map (fun t =>
          if t.apple_id == action.task.apple_id then appleStamp env action.task
          else t)
        db := update_sync_record env action st.db }
      (st, fresh)
    else
      let st := { st with
        appleTasks :=
          match action.task.apple_id with
          | some aid =>
            if aid = [] then st.appleTasks
            else st.appleTasks.filter (fun t => ¬ t.apple_id == some aid)
          | none => st.appleTasks
        db := update_sync_record env action st.db }
      (st, fresh)

/-- One full (non-dry) sync run over the task pipeline of
`SyncEngine.run_sync`: load both stores, dedupe the Apple side, index both
sides against the sync-state table, detect changes and execute every
action.  Category reconciliation precedes this in the source and emits no
`SyncAction`s.  Returns the actions of the run, the resulting state and the
advanced uuid counter. -/
def run_sync_once (env : RunEnv) (fresh0 : Nat) (st : SysState) :
    List SyncAction × SysState × Nat :=
  let apple_deduped := dedupe_apple_tasks st.appleTasks
  let sn := index_by_system_id_supernote st.db st.supernoteTasks
  let ap := index_by_system_id_apple st.db apple_deduped
  let det := detect_changes env fresh0 sn.1 ap.1 sn.2 ap.2 st.db
  let final := det.actions.foldl (execute_action env)
    ({ st with db := det.db }, det.fresh)
  (det.actions, final.1, final.2)

/-- Two consecutive full sync runs with no external edits in between: the
actions of the second run. -/
def secondRunActions (env1 env2 : RunEnv) (st0 : SysState) : List SyncAction :=
  let r1 := run_sync_once env1 0 st0
  (run_sync_once env2 r1.2.2 r1.2.1).1

/-! ## Claim C1: a second run is not always action-free

A concrete well-formed state on which the second of two back-to-back runs
(with no external edits in between) still emits an action.  In the first
run the Supernote task S1 — retitled by the user to "Y", the title of
another, independently paired reminder, and marked completed — wins over
its Apple partner A1, so A1 is rewritten to title "Y", completed.  In the
second run Apple-side deduplication groups A1 with the incomplete reminder
B1 under the shared title "Y", keeps B1 and drops A1; A1's sync record then
looks like a Device-side deletion, and the engine emits a `delete` for the
live Supernote task S1. -/

/-- Apple reminder A1, titled "X", paired with S1. -/
def loopAppleA : UnifiedTask := { blankTask with
  title := s2p "X"
  apple_id := some (s2p "A1")
  modified_at := some ⟨1000, none⟩ }

/-- Apple reminder B1, titled "Y", paired with S2, fully in sync. -/
def loopAppleB : UnifiedTask := { blankTask with
  title := s2p "Y"
  apple_id := some (s2p "B1")
  modified_at := some ⟨1000, none⟩ }

/-- Supernote task S1: retitled to "Y", notes edited, completed. -/
def loopSupernoteS1 : UnifiedTask := { blankTask with
  title := s2p "Y"
  notes := s2p "edited"
  completed := true
  supernote_id := some (s2p "S1")
  modified_at := some ⟨2000, none⟩
  completion_date := some ⟨2000, none⟩ }

/-- Supernote task S2: matches B1 exactly. -/
def loopSupernoteS2 : UnifiedTask := { blankTask with
  title := s2p "Y"
  supernote_id := some (s2p "S2")
  modified_at := some ⟨1000, none⟩ }

/-- The store state before the first run: both pairs recorded, the A1↔S1
record still holding A1's last-synced hash. -/
def loopState : SysState :=
  ⟨[loopSupernoteS1, loopSupernoteS2], [loopAppleA, loopAppleB],
   [⟨s2p "sid-a", some (s2p "A1"), some (s2p "S1"), loopAppleA.content_hash, 0, "both"⟩,
    ⟨s2p "sid-b", some (s2p "B1"), some (s2p "S2"), loopAppleB.content_hash, 0, "both"⟩]⟩

/-- Clock and uuid supply of the first run. -/
def loopEnv1 : RunEnv := ⟨10000000, fun n => s2p ("u" ++ toString n)⟩

/-- Clock and uuid supply of the second run. -/
def loopEnv2 : RunEnv := ⟨10000100, fun n => s2p ("u" ++ toString n)⟩

/-- A blank task carrying a given normalised priority (the Python method
reads `self.priority` only). -/
def taskWithPriority (p : Int) : UnifiedTask := { blankTask with priority := p }

/-- Rank of the Host (Apple) priority buckets: none 0 < low 9 < medium 5 <
high 1. -/
def appleBucketRank (a : Int) : Nat :=
  if a == 0 then 0 else if a == 9 then 1 else if a == 5 then 2 else 3

instance : IsTotal UnifiedTask dedupeRel := by
  constructor
  intro a b
  have hdk : ∀ x y : Option Int, dateKeyLE x y = true ∨ dateKeyLE y x = true := by
    intro x y
    cases x <;> cases y <;> simp [dateKeyLE] <;> omega
  simp only [dedupeRel, dedupeLE, Bool.or_eq_true, Bool.and_eq_true,
    beq_iff_eq, decide_eq_true_eq]
  rcases Nat.lt_trichotomy (completedRank a) (completedRank b) with h | h | h
  · exact Or.inl (Or.inl h)
  · rcases hdk (dedupeDate a) (dedupeDate b) with hd | hd
    · exact Or.inl (Or.inr ⟨h, hd⟩)
    · exact Or.inr (Or.inr ⟨h.symm, hd⟩)
  · exact Or.inr (Or.inl h)

instance : IsTrans UnifiedTask dedupeRel := by
  constructor
  intro a b c h₁ h₂
  simp only [dedupeRel, dedupeLE, Bool.or_eq_true, Bool.and_eq_true,
    beq_iff_eq, decide_eq_true_eq] at *
  have hdt : ∀ x y z : Option Int, dateKeyLE x y = true →
      dateKeyLE y z = true → dateKeyLE x z = true := by
    intro x y z hxy hyz
    cases x <;> cases y <;> cases z <;> simp [dateKeyLE] at * <;> omega
  rcases h₁ with h₁ | ⟨h₁e, h₁d⟩ <;> rcases h₂ with h₂ | ⟨h₂e, h₂d⟩
  · exact Or.inl (lt_trans h₁ h₂)
  · exact Or.inl (h₂e ▸ h₁)
  · exact Or.inl (h₁e ▸ h₂)
  · exact Or.inr ⟨h₁e.trans h₂e, hdt _ _ _ h₁d h₂d⟩

/-- An update action targeting the Device store that carries the Host
task's content onto the Device task's row. -/
def carriesHostContentToDevice (a s : UnifiedTask) (act : SyncAction) : Prop :=
  act.action = "update" ∧ act.target_system = "supernote" ∧
  act.task.title = a.title ∧ act.task.notes = a.notes ∧
  act.task.category = a.category ∧ act.task.completed = a.completed ∧
  act.task.due_date = a.due_date ∧ act.task.priority = a.priority ∧
  act.task.supernote_id = s.supernote_id

/-- An update action targeting the Host store that carries the Device
task's content onto the Host task's row. -/
def carriesDeviceContentToHost (a s : UnifiedTask) (act : SyncAction) : Prop :=
  act.action = "update" ∧ act.target_system = "apple" ∧
  act.task.title = s.title ∧ act.task.notes = s.notes ∧
  act.task.category = s.category ∧ act.task.completed = s.completed ∧
  act.task.due_date = s.due_date ∧ act.task.priority = s.priority ∧
  act.task.apple_id = a.apple_id

/-- `SyncResult` restricted to what the error-handling claim observes: the
recorded error messages and how many actions the execution loop reached. -/
structure SyncResultM where
  errors : List String
  attempted : Nat
deriving Repr, DecidableEq

/-- `SyncEngine._execute_action`: the `try` body (the dispatch to
`_execute_supernote_action` / `_execute_apple_action` plus
`_update_sync_record`) is abstracted as a fallible `dispatch`; an exception
is caught right here, its textual message appended to `result.errors`, and
control returns to the caller's loop. -/
def execute_action_caught (dispatch : SyncAction → Except String Unit)
    (res : SyncResultM) (action : SyncAction) : SyncResultM :=
  match dispatch action with
  | Except.ok _ => { res with attempted := res.attempted + 1 }
  | Except.error e =>
      { errors := res.errors ++ [e], attempted := res.attempted + 1 }

/-- The action loop of `run_sync`: every detected action is handed to
`_execute_action` in order, whatever happened to the previous ones. -/
def run_actions_caught (dispatch : SyncAction → Except String Unit)
    (actions : List SyncAction) (res : SyncResultM) : SyncResultM :=
  actions.foldl (execute_action_caught dispatch) res

/-- The top-level `try` of `run_sync`: the pipeline before the action loop
(category sync, task loading, indexing, change detection) is abstracted as
a fallible `load`; when it raises, the handler appends the message to the
result's errors and returns the result with no action executed, instead of
letting the exception propagate. -/
def run_sync_caught (load : Except String (List SyncAction))
    (dispatch : SyncAction → Except String Unit) : SyncResultM :=
  match load with
  | Except.error e => ⟨[e], 0⟩
  | Except.ok actions => run_actions_caught dispatch actions ⟨[], 0⟩

/-- The error message a single action contributes, if any. -/
def actionError (dispatch : SyncAction → Except String Unit)
    (a : SyncAction) : Option String :=
  match dispatch a with
  | Except.ok _ => none
  | Except.error e => some e

/-- The concrete run time for the C8 counterexample: day 300 at midnight,
with a fixed uuid supply. -/
def c8env : RunEnv := ⟨25920000, fun _ => s2p "u0"⟩

/-- An Apple task completed on day 100 — 200 days before `c8env.nowUtc` —
with no sync record. -/
def c8apple : UnifiedTask :=
  { blankTask with
    title := s2p "Pay rent"
    completed := true
    completion_date := some ⟨8640000, none⟩
    modified_at := some ⟨8640000, none⟩
    apple_id := some (s2p "A9") }

/-- A Supernote task with the same title and content. -/
def c8sn : UnifiedTask :=
  { blankTask with
    title := s2p "Pay rent"
    completed := true
    modified_at := some ⟨8553600, none⟩
    supernote_id := some (s2p "S9") }

/-- The run time for the C8 witness. -/
def w8env : RunEnv := ⟨25920000, fun _ => s2p "u0"⟩

/-- An old completed Apple task with a title shared by no Supernote
task. -/
def w8apple : UnifiedTask :=
  { blankTask with
    title := s2p "Pay rent"
    completed := true
    completion_date := some ⟨8640000, none⟩
    apple_id := some (s2p "A8") }

/-- A Supernote task of a different title. -/
def w8sn : UnifiedTask :=
  { blankTask with
    title := s2p "Groceries"
    supernote_id := some (s2p "S1") }

/-- Claim C1 (refuted on the code; the spec states the intended behaviour):
a full sync run immediately followed by a second full run with no external
edits between them does not always produce zero actions in the second run.
On `loopState` the first run performs one ordinary update, yet the second
run emits a `delete` targeting the live Supernote task S1. -/
theorem second_run_emits_action_on_loopState :
    (run_sync_once loopEnv1 0 loopState).1.map
        (fun a => (a.action, a.target_system)) = [("update", "apple")] ∧
    (secondRunActions loopEnv1 loopEnv2 loopState).map
        (fun a => (a.action, a.target_system, a.task.supernote_id)) =
      [("delete", "supernote", some (s2p "S1"))] := by
  constructor
  · decide
  · decide

/-! ## Claim C3: shape and dependence of `content_hash` -/

/-- Every character produced by `hexChar` is a lowercase hex digit. -/
theorem hexChar_mem_hexdigits (n : Nat) :
    hexChar n ∈ "0123456789abcdef".toList := by
  have h : n % 16 < 16 := Nat.mod_lt _ (by norm_num)
  unfold hexChar
  set m := n % 16 with hm
  interval_cases m <;> decide

/-- The hexdigest has 64 characters. -/
theorem sha256hexChars_length (msg : List Nat) :
    (sha256hexChars msg).length = 64 := by
  simp [sha256hexChars, word8hex]

/-- Every hexdigest character is a lowercase hex digit. -/
theorem sha256hexChars_mem (msg : List Nat) :
    ∀ c ∈ sha256hexChars msg, c ∈ "0123456789abcdef".toList := by
  intro c hc
  simp only [sha256hexChars, List.mem_append, List.mem_map, word8hex] at hc
  rcases hc with ((((((h | h) | h) | h) | h) | h) | h) | h <;>
    · obtain ⟨i, -, hi⟩ := h
      exact hi ▸ hexChar_mem_hexdigits _

/-- Claim C3: `content_hash` returns a 16-hexadecimal-character digest that
is determined solely by `(title, notes, category, completed, priority)`: its
length is 16, every character is a hex digit, and any two tasks agreeing on
those five fields hash identically whatever their dates, ids and links. -/
theorem content_hash_shape_and_dependence :
    (∀ t : UnifiedTask, t.content_hash.length = 16 ∧
      ∀ c ∈ t.content_hash.toList, c ∈ "0123456789abcdef".toList) ∧
    (∀ t₁ t₂ : UnifiedTask, t₁.title = t₂.title → t₁.notes = t₂.notes →
      t₁.category = t₂.category → t₁.completed = t₂.completed →
      t₁.priority = t₂.priority → t₁.content_hash = t₂.content_hash) := by
  constructor
  · intro t
    constructor
    · show (List.take 16 _).length = 16
      rw [List.length_take, sha256hexChars_length]
      decide
    · intro c hc
      have : c ∈ sha256hexChars (utf8Encode
          (dumpsContent t.title t.notes t.category t.completed t.priority)) :=
        List.take_subset 16 _ hc
      exact sha256hexChars_mem _ c this
  · intro t₁ t₂ h1 h2 h3 h4 h5
    simp only [UnifiedTask.content_hash, h1, h2, h3, h4, h5]

/-- Witness for C3 at concrete tasks agreeing on the five hashed fields but
differing in due date, modification date and identifiers. -/
theorem content_hash_shape_and_dependence_witness :
    ({ blankTask with
        title := s2p "Buy milk"
        due_date := some ⟨100, none⟩
        supernote_id := some (s2p "a1") } : UnifiedTask).content_hash =
    ({ blankTask with
        title := s2p "Buy milk"
        modified_at := some ⟨7, some 3600⟩
        apple_id := some (s2p "b2") } : UnifiedTask).content_hash :=
  content_hash_shape_and_dependence.2 _ _ rfl rfl rfl rfl rfl

/-! ## Claim C7: priority mapping round trip and monotonicity -/

/-- Claim C7: mapping a normalised priority in `{0, 1, 5, 9}` to the Host
scale and back is the identity, and the normalised-to-Host map is monotone
into the Host bucket order none < low < medium < high. -/
theorem priority_round_trip_and_monotone :
    (∀ p : Int, p = 0 ∨ p = 1 ∨ p = 5 ∨ p = 9 →
      UnifiedTask.map_priority_from_apple
        ((taskWithPriority p).map_priority_to_apple) = p) ∧
    (∀ p q : Int, 0 ≤ p → p ≤ q → q ≤ 9 →
      appleBucketRank ((taskWithPriority p).map_priority_to_apple) ≤
        appleBucketRank ((taskWithPriority q).map_priority_to_apple)) := by
  have e : ∀ r : Int, (taskWithPriority r).map_priority_to_apple =
      (if r = 0 then (0 : Int) else if r ≤ 3 then 9 else if r ≤ 6 then 5 else 1) := by
    intro r
    simp only [UnifiedTask.map_priority_to_apple, taskWithPriority, beq_iff_eq]
  constructor
  · rintro p (rfl | rfl | rfl | rfl) <;>
      rw [e] <;> norm_num [UnifiedTask.map_priority_from_apple]
  · intro p q h0 hpq h9
    have key : ∀ r : Int,
        appleBucketRank ((taskWithPriority r).map_priority_to_apple) =
          (if r = 0 then 0 else if r ≤ 3 then 1 else if r ≤ 6 then 2 else 3) := by
      intro r
      rw [e r]
      split_ifs with h1 h2 h3
      · decide
      · decide
      · decide
      · decide
    rw [key p, key q]
    split_ifs <;> omega

/-- Witness for C7: round trip at priority 5 and monotonicity at 2 ≤ 8. -/
theorem priority_round_trip_and_monotone_witness :
    UnifiedTask.map_priority_from_apple
      ((taskWithPriority 5).map_priority_to_apple) = 5 ∧
    appleBucketRank ((taskWithPriority 2).map_priority_to_apple) ≤
      appleBucketRank ((taskWithPriority 8).map_priority_to_apple) :=
  ⟨priority_round_trip_and_monotone.1 5 (by norm_num),
   priority_round_trip_and_monotone.2 2 8 (by norm_num) (by norm_num) (by norm_num)⟩

/-! ## Claim C5: notes truncation in the Device adapter -/

/-- Claim C5 counterexample: the stored notes can exceed 255 octets.  For
one hundred U+20AC characters (three UTF-8 octets each), the slice
`[:255]` keeps all of them, and the stored value is 300 octets long. -/
theorem supernote_notes_exceed_255_octets :
    255 < (utf8Encode (supernoteStoredNotes (List.replicate 100 0x20AC))).length := by
  decide

/-- Claim C5 (amended): the notes written by the Device adapter are the
emoji-encoded notes truncated to at most 255 characters (code points), the
truncation being applied after encoding; the character count never exceeds
255 (the octet count can). -/
theorem supernote_notes_truncation_characters :
    ∀ notes : PyStr, supernoteStoredNotes notes = (encode_emoji notes).take 255 ∧
      (supernoteStoredNotes notes).length ≤ 255 := by
  intro notes
  exact ⟨rfl, List.length_take_le 255 (encode_emoji notes)⟩

/-! ## Claim C6: emoji sentinel codec round trip -/

/-- Hex-digit facts about `hexUpperDigit` on one nibble. -/
theorem hexUpperDigit_facts :
    ∀ m < 16, isHexDigitByte (hexUpperDigit m) = true ∧
      hexVal (hexUpperDigit m) = m := by decide

/-- `toHexUpperAux` at zero yields no digits. -/
theorem toHexUpperAux_zero (f : Nat) : toHexUpperAux f 0 = [] := by
  cases f <;> simp [toHexUpperAux]

/-- `parseHexNat` over a final digit. -/
theorem parseHexNat_append_singleton (xs : PyStr) (d : Nat) :
    parseHexNat (xs ++ [d]) = 16 * parseHexNat xs + hexVal d := by
  simp [parseHexNat, List.foldl_append]

/-- The fuelled hex digits of a positive number are non-empty hex digits
parsing back to the number, for any sufficient fuel. -/
theorem toHexUpperAux_spec :
    ∀ n f : Nat, 0 < n → n ≤ f →
      (∀ c ∈ toHexUpperAux f n, isHexDigitByte c = true) ∧
        toHexUpperAux f n ≠ [] ∧ parseHexNat (toHexUpperAux f n) = n := by
  intro n
  induction n using Nat.strong_induction_on with
  | _ n ih =>
    intro f hn hf
    obtain ⟨f', rfl⟩ : ∃ f', f = f' + 1 :=
      ⟨f - 1, by omega⟩
    have hne : n ≠ 0 := Nat.pos_iff_ne_zero.mp hn
    have hdig := hexUpperDigit_facts (n % 16) (Nat.mod_lt _ (by norm_num))
    by_cases hsmall : n < 16
    · have hq : n / 16 = 0 := Nat.div_eq_of_lt hsmall
      have hm : n % 16 = n := Nat.mod_eq_of_lt hsmall
      refine ⟨?_, ?_, ?_⟩
      · intro c hc
        simp only [toHexUpperAux, hne, if_false, hq, toHexUpperAux_zero,
          List.nil_append, List.mem_singleton] at hc
        exact hc ▸ hdig.1
      · simp [toHexUpperAux, hne]
      · simp only [toHexUpperAux, hne, if_false, hq, toHexUpperAux_zero,
          List.nil_append]
        simpa [parseHexNat, hm] using hdig.2
    · have hq1 : 0 < n / 16 := Nat.div_pos (by omega) (by norm_num)
      have hqlt : n / 16 < n := Nat.div_lt_self hn (by norm_num)
      have hqf : n / 16 ≤ f' := by omega
      obtain ⟨ihhex, ihne, ihparse⟩ := ih (n / 16) hqlt f' hq1 hqf
      refine ⟨?_, ?_, ?_⟩
      · intro c hc
        simp only [toHexUpperAux, hne, if_false, List.mem_append,
          List.mem_singleton] at hc
        rcases hc with hc | rfl
        · exact ihhex c hc
        · exact hdig.1
      · simp [toHexUpperAux, hne]
      · simp only [toHexUpperAux, hne, if_false]
        rw [parseHexNat_append_singleton, ihparse, hdig.2]
        omega

/-- `f"{n:X}"` yields non-empty hex digits parsing back to `n`. -/
theorem toHexUpper_spec (n : Nat) :
    (∀ c ∈ toHexUpper n, isHexDigitByte c = true) ∧
      toHexUpper n ≠ [] ∧ parseHexNat (toHexUpper n) = n := by
  by_cases hn : n = 0
  · subst hn; refine ⟨?_, ?_, ?_⟩ <;> decide
  · simpa [toHexUpper, hn] using
      toHexUpperAux_spec n n (Nat.pos_iff_ne_zero.mpr hn) le_rfl

/-- A hex digit is none of the sentinel frame characters. -/
theorem hex_not_frame {c : Nat} (h : isHexDigitByte c = true) :
    c ≠ 0x5B ∧ c ≠ 0x5D ∧ c ≠ 0x55 ∧ c ≠ 0x2B ∧ c ≤ 0xFFFF := by
  simp only [isHexDigitByte, Bool.or_eq_true, Bool.and_eq_true,
    decide_eq_true_eq] at h
  omega

/-- `takeWhile`/`dropWhile` on a satisfying prefix followed by a failing
head. -/
theorem takeWhile_dropWhile_split (p : Nat → Bool) :
    ∀ (h : List Nat) (d : Nat) (r : List Nat), (∀ c ∈ h, p c = true) →
      p d = false →
      ((h ++ d :: r).takeWhile p = h ∧ (h ++ d :: r).dropWhile p = d :: r)
  | [], d, r, _, hd => by simp [List.takeWhile, List.dropWhile, hd]
  | c :: h, d, r, hh, hd => by
    have hc : p c = true := hh c (by simp)
    have ih := takeWhile_dropWhile_split p h d r (fun x hx => hh x (by simp [hx])) hd
    simp [List.takeWhile, List.dropWhile, hc, ih.1, ih.2]


/-- No match on a text of fewer than three characters. -/
theorem matchSentinel_short :
    matchSentinel [] = none ∧ (∀ a, matchSentinel [a] = none) ∧
      ∀ a b, matchSentinel [a, b] = none :=
  ⟨rfl, fun _ => rfl, fun _ _ => rfl⟩

/-- No match when the head is not `[`. -/
theorem matchSentinel_none_fst {a : Nat} (l : PyStr) (ha : a ≠ 0x5B) :
    matchSentinel (a :: l) = none := by
  match l with
  | [] => rfl
  | [b] => rfl
  | b :: c :: rest2 =>
    exact if_neg (fun h => ha h.1)

/-- No match when the second character is not `U`. -/
theorem matchSentinel_none_snd {b : Nat} (a : Nat) (l : PyStr) (hb : b ≠ 0x55) :
    matchSentinel (a :: b :: l) = none := by
  match l with
  | [] => rfl
  | c :: rest2 =>
    exact if_neg (fun h => hb h.2.1)

/-- No match when the third character is not `+`. -/
theorem matchSentinel_none_trd {c : Nat} (a b : Nat) (l : PyStr) (hc : c ≠ 0x2B) :
    matchSentinel (a :: b :: c :: l) = none :=
  if_neg (fun h => hc h.2.2.1)

/-- After a `[U+` frame: no match when no hex digit follows. -/
theorem matchSentinel_none_nohex (rest2 : PyStr)
    (h : rest2.takeWhile isHexDigitByte = []) :
    matchSentinel (0x5B :: 0x55 :: 0x2B :: rest2) = none :=
  if_neg (fun hc => hc.2.2.2.1 h)

/-- After a `[U+` frame: no match when the digit run ends the text or is not
followed by `]`. -/
theorem matchSentinel_none_noclose (rest2 : PyStr)
    (h : ∀ d rest4, rest2.dropWhile isHexDigitByte = d :: rest4 → d ≠ 0x5D) :
    matchSentinel (0x5B :: 0x55 :: 0x2B :: rest2) = none := by
  refine if_neg (fun hc => ?_)
  obtain ⟨-, -, -, -, hdw, hhead⟩ := hc
  cases hd : rest2.dropWhile isHexDigitByte with
  | nil => exact hdw hd
  | cons d r4 =>
    rw [hd] at hhead
    exact h d r4 hd (by simpa using hhead)

/-- A well-formed sentinel at the head matches, capturing its digits. -/
theorem matchSentinel_some (hx rest4 : PyStr) (hne : hx ≠ [])
    (hhex : ∀ c ∈ hx, isHexDigitByte c = true) :
    matchSentinel (0x5B :: 0x55 :: 0x2B :: (hx ++ 0x5D :: rest4)) =
      some (hx, rest4) := by
  obtain ⟨htw, hdw⟩ :=
    takeWhile_dropWhile_split isHexDigitByte hx 0x5D rest4 hhex rfl
  have : matchSentinel (0x5B :: 0x55 :: 0x2B :: (hx ++ 0x5D :: rest4)) =
      some ((hx ++ 0x5D :: rest4).takeWhile isHexDigitByte,
            ((hx ++ 0x5D :: rest4).dropWhile isHexDigitByte).tail) :=
    if_pos ⟨rfl, rfl, rfl, by rw [htw]; exact hne, by rw [hdw]; simp,
      by rw [hdw]; rfl⟩
  rw [this, htw, hdw]
  rfl

/-- Inversion: a successful match reconstructs the sentinel shape. -/
theorem matchSentinel_eq_some {l hx rest4 : PyStr}
    (h : matchSentinel l = some (hx, rest4)) :
    l = 0x5B :: 0x55 :: 0x2B :: (hx ++ 0x5D :: rest4) ∧ hx ≠ [] ∧
      ∀ c ∈ hx, isHexDigitByte c = true := by
  match l with
  | [] => exact absurd h (by simp [matchSentinel])
  | [a] => exact absurd h (by simp [matchSentinel])
  | [a, b] => exact absurd h (by simp [matchSentinel])
  | a :: b :: c :: rest2 =>
    by_cases hc : a = 0x5B ∧ b = 0x55 ∧ c = 0x2B ∧
        rest2.takeWhile isHexDigitByte ≠ [] ∧
        rest2.dropWhile isHexDigitByte ≠ [] ∧
        (rest2.dropWhile isHexDigitByte).headD 0 = 0x5D
    · obtain ⟨rfl, rfl, rfl, htwne, hdwne, hhead⟩ := hc
      have h' : some (rest2.takeWhile isHexDigitByte,
          (rest2.dropWhile isHexDigitByte).tail) = some (hx, rest4) := by
        rw [← h]
        exact (if_pos ⟨rfl, rfl, rfl, htwne, hdwne, hhead⟩).symm
      have hfst : rest2.takeWhile isHexDigitByte = hx :=
        congrArg Prod.fst (Option.some.inj h')
      have hsnd : (rest2.dropWhile isHexDigitByte).tail = rest4 :=
        congrArg Prod.snd (Option.some.inj h')
      cases hd : rest2.dropWhile isHexDigitByte with
      | nil => exact absurd hd hdwne
      | cons d r4 =>
        have hd5 : d = 0x5D := by rw [hd] at hhead; simpa using hhead
        have hr4 : r4 = rest4 := by rw [hd] at hsnd; simpa using hsnd
        refine ⟨?_, by rw [← hfst]; exact htwne,
          fun x hmem => List.mem_takeWhile_imp (hfst ▸ hmem)⟩
        have hsplit := List.takeWhile_append_dropWhile isHexDigitByte rest2
        have hrest : rest2 = hx ++ 0x5D :: rest4 := by
          conv_lhs => rw [← hsplit]
          rw [hd, hd5, hr4, hfst]
        conv_lhs => rw [hrest]
    · rw [matchSentinel, if_neg hc] at h
      exact absurd h (by simp)

/-- `decodeAux` ignores its fuel on the empty text. -/
theorem decodeAux_nil (f : Nat) : decodeAux f [] = [] := by
  cases f <;> rfl

/-- The text length accounting of a successful match. -/
theorem matchSentinel_length {c : Nat} {rest hx rest4 : PyStr}
    (h : matchSentinel (c :: rest) = some (hx, rest4)) :
    rest.length = 3 + hx.length + rest4.length ∧ 0 < hx.length := by
  obtain ⟨hshape, hne, -⟩ := matchSentinel_eq_some h
  have hl := congrArg List.length hshape
  simp only [List.length_cons, List.length_append] at hl
  exact ⟨by omega, List.length_pos.mpr hne⟩

/-- `decodeAux` never lengthens the text. -/
theorem decodeAux_length_le : ∀ (f : Nat) (l : PyStr),
    (decodeAux f l).length ≤ l.length := by
  intro f
  induction f with
  | zero => intro l; cases l <;> simp [decodeAux]
  | succ f ih =>
    intro l
    cases l with
    | nil => simp [decodeAux]
    | cons c rest =>
      cases hm : matchSentinel (c :: rest) with
      | none =>
        simp only [decodeAux, hm, List.length_cons]
        exact Nat.succ_le_succ (ih rest)
      | some p =>
        obtain ⟨hx, rest4⟩ := p
        obtain ⟨hrl, hxpos⟩ := matchSentinel_length hm
        have hrec := ih rest4
        simp only [decodeAux, hm, List.length_append, List.length_cons]
        have hif : (if parseHexNat hx ≤ 0x10FFFF then [parseHexNat hx]
            else sentinelText hx).length ≤ 4 + hx.length := by
          split <;> simp [sentinelText] <;> omega
        omega

/-- `decodeAux` is fuel-irrelevant above the text length. -/
theorem decodeAux_fuel : ∀ (f₁ : Nat) (l : PyStr) (f₂ : Nat),
    l.length ≤ f₁ → l.length ≤ f₂ → decodeAux f₁ l = decodeAux f₂ l := by
  intro f₁
  induction f₁ with
  | zero =>
    intro l f₂ h₁ _
    obtain rfl : l = [] := List.eq_nil_of_length_eq_zero (Nat.le_zero.mp h₁)
    rw [decodeAux_nil, decodeAux_nil]
  | succ f₁' ih =>
    intro l f₂ h₁ h₂
    cases l with
    | nil => rw [decodeAux_nil, decodeAux_nil]
    | cons c rest =>
      obtain ⟨f₂', rfl⟩ : ∃ f₂', f₂ = f₂' + 1 := by
        cases f₂ with
        | zero => simp at h₂
        | succ k => exact ⟨k, rfl⟩
      simp only [List.length_cons] at h₁ h₂
      cases hm : matchSentinel (c :: rest) with
      | none =>
        simp only [decodeAux, hm]
        rw [ih rest f₂' (by omega) (by omega)]
      | some p =>
        obtain ⟨hx, rest4⟩ := p
        obtain ⟨hrl, hxpos⟩ := matchSentinel_length hm
        simp only [decodeAux, hm]
        rw [ih rest4 f₂' (by omega) (by omega)]

/-- One decode step that finds no match at the head. -/
theorem decode_cons_none {c : Nat} {l : PyStr}
    (h : matchSentinel (c :: l) = none) :
    decode_emoji (c :: l) = c :: decode_emoji l := by
  show decodeAux (l.length + 1) (c :: l) = _
  simp only [decodeAux, h, decode_emoji]

/-- One decode step that consumes a matched sentinel. -/
theorem decode_cons_some {c : Nat} {l hx rest4 : PyStr}
    (h : matchSentinel (c :: l) = some (hx, rest4)) :
    decode_emoji (c :: l) =
      (if parseHexNat hx ≤ 0x10FFFF then [parseHexNat hx]
        else sentinelText hx) ++ decode_emoji rest4 := by
  obtain ⟨hrl, hxpos⟩ := matchSentinel_length h
  show decodeAux (l.length + 1) (c :: l) = _
  simp only [decodeAux, h, decode_emoji]
  rw [decodeAux_fuel l.length rest4 rest4.length (by omega) le_rfl]

/-- Decoding passes over any prefix free of `[`. -/
theorem decode_append_pass : ∀ (h : PyStr) (l : PyStr),
    (∀ c ∈ h, c ≠ 0x5B) → decode_emoji (h ++ l) = h ++ decode_emoji l := by
  intro h
  induction h with
  | nil => intro l _; rfl
  | cons c h ih =>
    intro l hc
    have hcne : c ≠ 0x5B := hc c (by simp)
    rw [List.cons_append, decode_cons_none (matchSentinel_none_fst _ hcne),
      ih l (fun x hx => hc x (by simp [hx]))]
    rfl

/-- Unfolding one encoded character. -/
theorem encode_cons (c : Nat) (t : PyStr) :
    encode_emoji (c :: t) =
      (if 0xFFFF < c then sentinelText (toHexUpper c) else [c]) ++
        encode_emoji t := by
  simp [encode_emoji]

/-- Claim C6, identity part: encoding is the identity on BMP-only text. -/
theorem encode_bmp : ∀ s : PyStr, (∀ c ∈ s, c ≤ 0xFFFF) → encode_emoji s = s := by
  intro s
  induction s with
  | nil => intro _; rfl
  | cons c t ih =>
    intro h
    rw [encode_cons, if_neg (by have := h c (by simp); omega),
      ih (fun x hx => h x (by simp [hx])), List.singleton_append]

/-- The head of a `dropWhile` residue fails the predicate. -/
theorem dropWhile_head_false (p : Nat → Bool) :
    ∀ (l : List Nat) (d : Nat) (r : List Nat), l.dropWhile p = d :: r →
      p d = false := by
  intro l
  induction l with
  | nil => intro d r h; simp at h
  | cons c l ih =>
    intro d r h
    rw [List.dropWhile_cons] at h
    by_cases hc : p c = true
    · exact ih d r (by rwa [if_pos hc] at h)
    · rw [if_neg hc] at h
      obtain ⟨rfl, -⟩ := List.cons.injEq .. ▸ h
      exact Bool.not_eq_true _ ▸ hc

/-- `takeWhile`/`dropWhile` on an all-satisfying list. -/
theorem takeWhile_all (p : Nat → Bool) :
    ∀ l : List Nat, (∀ c ∈ l, p c = true) →
      l.takeWhile p = l ∧ l.dropWhile p = [] := by
  intro l
  induction l with
  | nil => intro _; exact ⟨rfl, rfl⟩
  | cons c l ih =>
    intro h
    have hc : p c = true := h c (by simp)
    have := ih (fun x hx => h x (by simp [hx]))
    rw [List.takeWhile_cons, List.dropWhile_cons, if_pos hc, if_pos hc]
    exact ⟨by rw [this.1], this.2⟩

/-- The head of an encoded non-empty text: the first character itself when
it is BMP, else the `[` opening its sentinel. -/
theorem encode_head (u : Nat) (t2 : PyStr) :
    ∃ tl, (0xFFFF < u ∧ encode_emoji (u :: t2) = 0x5B :: tl) ∨
      (u ≤ 0xFFFF ∧ encode_emoji (u :: t2) = u :: tl) := by
  rw [encode_cons]
  by_cases hu : 0xFFFF < u
  · refine ⟨0x55 :: 0x2B :: (toHexUpper u ++ [0x5D]) ++ encode_emoji t2, Or.inl ⟨hu, ?_⟩⟩
    rw [if_pos hu]
    simp [sentinelText]
  · exact ⟨encode_emoji t2, Or.inr ⟨by omega, by rw [if_neg hu]; rfl⟩⟩

/-- Encoding distributes over concatenation. -/
theorem encode_append (a b : PyStr) :
    encode_emoji (a ++ b) = encode_emoji a ++ encode_emoji b := by
  simp [encode_emoji]

/-- Decoding inverts encoding on any valid text that the decoder leaves
unchanged (no decodable sentinel occurs literally in the text). -/
theorem decode_encode_of_clean : ∀ (n : Nat) (s : PyStr), s.length ≤ n →
    (∀ c ∈ s, c < 0x110000) → decode_emoji s = s →
    decode_emoji (encode_emoji s) = s := by
  intro n
  induction n with
  | zero =>
    intro s hlen _ _
    obtain rfl : s = [] := List.eq_nil_of_length_eq_zero (Nat.le_zero.mp hlen)
    rfl
  | succ n ih =>
    intro s hlen hval hdec
    match s with
    | [] => rfl
    | c :: t =>
      simp only [List.length_cons] at hlen
      by_cases hcb : c = 0x5B
      case neg =>
        rw [decode_cons_none (matchSentinel_none_fst t hcb)] at hdec
        have hdect : decode_emoji t = t := by simpa using hdec
        have hvt : ∀ x ∈ t, x < 0x110000 := fun x hx => hval x (by simp [hx])
        have iht : decode_emoji (encode_emoji t) = t :=
          ih t (by omega) hvt hdect
        by_cases hbmp : 0xFFFF < c
        · obtain ⟨hhex, hne, hparse⟩ := toHexUpper_spec c
          rw [encode_cons, if_pos hbmp]
          have hshape : sentinelText (toHexUpper c) ++ encode_emoji t =
              0x5B :: 0x55 :: 0x2B ::
                (toHexUpper c ++ 0x5D :: encode_emoji t) := by
            simp [sentinelText]
          rw [hshape,
            decode_cons_some (matchSentinel_some _ _ hne hhex), hparse,
            if_pos (by have := hval c (by simp); omega), iht]
          rfl
        · rw [encode_cons, if_neg hbmp, List.singleton_append,
            decode_cons_none (matchSentinel_none_fst _ hcb), iht]
      case pos =>
        subst hcb
        match t with
        | [] => decide
        | u1 :: t2 =>
          by_cases hu : u1 = 0x55
          case neg =>
            rw [decode_cons_none (matchSentinel_none_snd _ _ hu)] at hdec
            have hdect : decode_emoji (u1 :: t2) = u1 :: t2 := by
              simpa using hdec
            have iht : decode_emoji (encode_emoji (u1 :: t2)) = u1 :: t2 :=
              ih (u1 :: t2) (by simp at hlen ⊢; omega)
                (fun x hx => hval x (by simp at hx ⊢; tauto)) hdect
            obtain ⟨tl, htl⟩ := encode_head u1 t2
            show decode_emoji (encode_emoji (0x5B :: u1 :: t2)) = _
            rw [encode_cons, if_neg (by norm_num), List.singleton_append]
            rcases htl with ⟨hbig, heq⟩ | ⟨hsmall, heq⟩
            · rw [heq, decode_cons_none (matchSentinel_none_snd _ _ (by norm_num)),
                ← heq, iht]
            · rw [heq, decode_cons_none (matchSentinel_none_snd _ _ hu),
                ← heq, iht]
          case pos =>
            subst hu
            match t2 with
            | [] => decide
            | p1 :: t3 =>
              by_cases hp : p1 = 0x2B
              case neg =>
                rw [decode_cons_none (matchSentinel_none_trd _ _ _ hp),
                  decode_cons_none (matchSentinel_none_fst _ (by norm_num))]
                  at hdec
                have hdect : decode_emoji (p1 :: t3) = p1 :: t3 := by
                  simpa using hdec
                have iht : decode_emoji (encode_emoji (p1 :: t3)) = p1 :: t3 :=
                  ih (p1 :: t3) (by simp at hlen ⊢; omega)
                    (fun x hx => hval x (by simp at hx ⊢; tauto)) hdect
                obtain ⟨tl, htl⟩ := encode_head p1 t3
                show decode_emoji (encode_emoji (0x5B :: 0x55 :: p1 :: t3)) = _
                rw [encode_cons, if_neg (by norm_num), List.singleton_append,
                  encode_cons, if_neg (by norm_num), List.singleton_append]
                rcases htl with ⟨hbig, heq⟩ | ⟨hsmall, heq⟩
                · rw [heq,
                    decode_cons_none (matchSentinel_none_trd _ _ _ (by norm_num)),
                    decode_cons_none (matchSentinel_none_fst _ (by norm_num)),
                    ← heq, iht]
                · rw [heq,
                    decode_cons_none (matchSentinel_none_trd _ _ _ hp),
                    decode_cons_none (matchSentinel_none_fst _ (by norm_num)),
                    ← heq, iht]
              case pos =>
                subst hp
                cases htw : t3.takeWhile isHexDigitByte with
                | nil =>
                  rw [decode_cons_none (matchSentinel_none_nohex t3 htw),
                    decode_cons_none (matchSentinel_none_fst _ (by norm_num)),
                    decode_cons_none (matchSentinel_none_fst _ (by norm_num))]
                    at hdec
                  have hdect : decode_emoji t3 = t3 := by
                    simpa using hdec
                  have iht : decode_emoji (encode_emoji t3) = t3 :=
                    ih t3 (by simp at hlen ⊢; omega)
                      (fun x hx => hval x (by simp at hx ⊢; tauto)) hdect
                  have htwenc : (encode_emoji t3).takeWhile isHexDigitByte = [] := by
                    match t3, htw with
                    | [], _ => rfl
                    | d :: t4, htw =>
                      have hd : isHexDigitByte d = false := by
                        rw [List.takeWhile_cons] at htw
                        by_cases h : isHexDigitByte d = true
                        · rw [if_pos h] at htw; simp at htw
                        · exact Bool.not_eq_true _ ▸ h
                      obtain ⟨tl, htl⟩ := encode_head d t4
                      rcases htl with ⟨hbig, heq⟩ | ⟨hsmall, heq⟩
                      · rw [heq, List.takeWhile_cons, if_neg (by decide)]
                      · rw [heq, List.takeWhile_cons, if_neg (by simp [hd])]
                  show decode_emoji (encode_emoji (0x5B :: 0x55 :: 0x2B :: t3)) = _
                  rw [encode_cons, if_neg (by norm_num), List.singleton_append,
                    encode_cons, if_neg (by norm_num), List.singleton_append,
                    encode_cons, if_neg (by norm_num), List.singleton_append,
                    decode_cons_none (matchSentinel_none_nohex _ htwenc),
                    decode_cons_none (matchSentinel_none_fst _ (by norm_num)),
                    decode_cons_none (matchSentinel_none_fst _ (by norm_num)),
                    iht]
                | cons x hxtl =>
                  have hxsplit := List.takeWhile_append_dropWhile isHexDigitByte t3
                  have hhex : ∀ c ∈ x :: hxtl, isHexDigitByte c = true :=
                    fun c hc => List.mem_takeWhile_imp (htw ▸ hc)
                  have hxLB : ∀ c ∈ x :: hxtl, c ≠ 0x5B :=
                    fun c hc => (hex_not_frame (hhex c hc)).1
                  have hxBMP : ∀ c ∈ x :: hxtl, c ≤ 0xFFFF :=
                    fun c hc => (hex_not_frame (hhex c hc)).2.2.2.2
                  cases hdw : t3.dropWhile isHexDigitByte with
                  | nil =>
                    have ht3 : t3 = x :: hxtl := by
                      rw [← hxsplit, htw, hdw, List.append_nil]
                    have henc : encode_emoji t3 = t3 :=
                      encode_bmp t3 (by rw [ht3]; exact hxBMP)
                    have hm := matchSentinel_none_noclose t3
                      (fun d r h => by rw [hdw] at h; exact absurd h (by simp))
                    have hdt3 : decode_emoji t3 = t3 := by
                      rw [ht3]
                      simpa [show decode_emoji [] = [] from rfl] using
                        decode_append_pass (x :: hxtl) [] hxLB
                    rw [encode_cons, if_neg (by norm_num), List.singleton_append,
                      encode_cons, if_neg (by norm_num), List.singleton_append,
                      encode_cons, if_neg (by norm_num), List.singleton_append,
                      henc, decode_cons_none hm,
                      decode_cons_none (matchSentinel_none_fst _ (by norm_num)),
                      decode_cons_none (matchSentinel_none_fst _ (by norm_num)),
                      hdt3]
                  | cons d r2 =>
                    have hdfalse : isHexDigitByte d = false :=
                      dropWhile_head_false _ t3 d r2 hdw
                    have ht3 : t3 = (x :: hxtl) ++ d :: r2 := by
                      rw [← hxsplit, htw, hdw]
                    have ht3l := congrArg List.length ht3
                    simp only [List.length_append, List.length_cons] at ht3l hlen
                    have hvdr : ∀ y ∈ d :: r2, y < 0x110000 := by
                      intro y hy
                      refine hval y ?_
                      have : y ∈ t3 := by
                        rw [ht3]; exact List.mem_append_right _ hy
                      simp [this]
                    by_cases hd5 : d = 0x5D
                    case neg =>
                      have hmS := matchSentinel_none_noclose t3
                        (fun d' r' h' => by
                          rw [hdw] at h'
                          injection h' with h1 h2
                          rw [← h1]; exact hd5)
                      rw [decode_cons_none hmS,
                        decode_cons_none (matchSentinel_none_fst _ (by norm_num)),
                        decode_cons_none (matchSentinel_none_fst _ (by norm_num))]
                        at hdec
                      have hdt3 : decode_emoji t3 = t3 := by simpa using hdec
                      have hddr : decode_emoji (d :: r2) = d :: r2 := by
                        have hpass := decode_append_pass (x :: hxtl) (d :: r2) hxLB
                        rw [← ht3, hdt3, ht3] at hpass
                        exact (List.append_cancel_left hpass).symm
                      have ihdr : decode_emoji (encode_emoji (d :: r2)) = d :: r2 :=
                        ih (d :: r2) (by simp only [List.length_cons]; omega)
                          hvdr hddr
                      obtain ⟨tl, htl⟩ := encode_head d r2
                      have hencT3 : encode_emoji t3 =
                          (x :: hxtl) ++ encode_emoji (d :: r2) := by
                        rw [ht3, encode_append, encode_bmp _ hxBMP]
                      have hmE : matchSentinel
                          (0x5B :: 0x55 :: 0x2B :: encode_emoji t3) = none := by
                        apply matchSentinel_none_noclose
                        intro d' r' h'
                        rcases htl with ⟨hbig, heq⟩ | ⟨hsm, heq⟩
                        · rw [hencT3, heq] at h'
                          have hsp := takeWhile_dropWhile_split isHexDigitByte
                            (x :: hxtl) 0x5B tl hhex (by decide)
                          rw [hsp.2] at h'
                          injection h' with h1 h2
                          rw [← h1]; decide
                        · rw [hencT3, heq] at h'
                          have hsp := takeWhile_dropWhile_split isHexDigitByte
                            (x :: hxtl) d tl hhex hdfalse
                          rw [hsp.2] at h'
                          injection h' with h1 h2
                          rw [← h1]; exact hd5
                      rw [encode_cons, if_neg (by norm_num), List.singleton_append,
                        encode_cons, if_neg (by norm_num), List.singleton_append,
                        encode_cons, if_neg (by norm_num), List.singleton_append,
                        decode_cons_none hmE,
                        decode_cons_none (matchSentinel_none_fst _ (by norm_num)),
                        decode_cons_none (matchSentinel_none_fst _ (by norm_num)),
                        hencT3,
                        decode_append_pass (x :: hxtl) (encode_emoji (d :: r2)) hxLB,
                        ihdr, ← ht3]
                    case pos =>
                      subst hd5
                      have hmS := matchSentinel_some (x :: hxtl) r2 (by simp) hhex
                      have hd2 := decode_cons_some
                        (show matchSentinel (0x5B :: 0x55 :: 0x2B :: t3) =
                          some (x :: hxtl, r2) by rw [ht3]; exact hmS)
                      by_cases hov : parseHexNat (x :: hxtl) ≤ 0x10FFFF
                      case pos =>
                        exfalso
                        rw [if_pos hov] at hd2
                        rw [hd2] at hdec
                        have hldec := congrArg List.length hdec
                        have hle : (decode_emoji r2).length ≤ r2.length :=
                          decodeAux_length_le r2.length r2
                        simp at hldec
                        omega
                      case neg =>
                        rw [if_neg hov] at hd2
                        have hsform : (0x5B :: 0x55 :: 0x2B :: t3 : PyStr) =
                            sentinelText (x :: hxtl) ++ r2 := by
                          rw [ht3]; simp [sentinelText]
                        rw [hd2, hsform] at hdec
                        have hdr2 : decode_emoji r2 = r2 :=
                          List.append_cancel_left hdec
                        have ihr2 : decode_emoji (encode_emoji r2) = r2 :=
                          ih r2 (by omega)
                            (fun y hy => hvdr y (by simp [hy])) hdr2
                        have hencT3 : encode_emoji t3 =
                            (x :: hxtl) ++ 0x5D :: encode_emoji r2 := by
                          rw [ht3, encode_append, encode_bmp _ hxBMP,
                            encode_cons, if_neg (by norm_num),
                            List.singleton_append]
                        have hmE : matchSentinel
                            (0x5B :: 0x55 :: 0x2B :: encode_emoji t3) =
                            some (x :: hxtl, encode_emoji r2) := by
                          rw [hencT3]
                          exact matchSentinel_some _ _ (by simp) hhex
                        rw [encode_cons, if_neg (by norm_num), List.singleton_append,
                          encode_cons, if_neg (by norm_num), List.singleton_append,
                          encode_cons, if_neg (by norm_num), List.singleton_append,
                          decode_cons_some hmE, if_neg hov, ihr2, ← hsform]

/-- Claim C6 (amended): `decode(encode(s)) = s` holds for every valid text
that the decoder leaves unchanged — i.e. containing no decodable literal
sentinel — and `encode` is the identity on text without code points above
U+FFFF.  The unconditional round trip claimed originally fails, because a
literal sentinel already present in the data is consumed by decode rather
than preserved (see the counterexample). -/
theorem emoji_codec_round_trip :
    (∀ s : PyStr, (∀ c ∈ s, c < 0x110000) → decode_emoji s = s →
        decode_emoji (encode_emoji s) = s) ∧
    (∀ s : PyStr, (∀ c ∈ s, c ≤ 0xFFFF) → encode_emoji s = s) :=
  ⟨fun s hv hd => decode_encode_of_clean s.length s le_rfl hv hd, encode_bmp⟩

/-- Claim C6 counterexample: the literal sentinel `[U+41]` is untouched by
encoding (it is all BMP) but decoding turns it into `A`, so
`decode(encode(s)) = s` fails and a literal sentinel does not survive a
read unchanged. -/
theorem emoji_codec_counterexample :
    decode_emoji (encode_emoji (s2p "[U+41]")) ≠ s2p "[U+41]" := by decide

/-- Witness for C6 on a concrete text mixing BMP characters and an emoji. -/
theorem emoji_codec_round_trip_witness :
    decode_emoji (encode_emoji (s2p "hi 😀!")) = s2p "hi 😀!" :=
  emoji_codec_round_trip.1 _ (by decide) (by decide)


/-! ## Claim C4: repeating-task deduplication -/

/-- The sort comparison is reflexive. -/
theorem dedupeLE_refl (a : UnifiedTask) : dedupeLE a a = true := by
  unfold dedupeLE
  rw [Bool.or_eq_true, Bool.and_eq_true]
  exact Or.inr ⟨beq_self_eq_true _, by cases dedupeDate a <;> simp [dateKeyLE]⟩

/-- The date-key order is total. -/
theorem dateKeyLE_total (a b : Option Int) :
    dateKeyLE a b = true ∨ dateKeyLE b a = true := by
  cases a <;> cases b <;> simp [dateKeyLE] <;> omega

/-- The date-key order is transitive. -/
theorem dateKeyLE_trans {a b c : Option Int} (h₁ : dateKeyLE a b = true)
    (h₂ : dateKeyLE b c = true) : dateKeyLE a c = true := by
  cases a <;> cases b <;> cases c <;> simp [dateKeyLE] at * <;> omega

/-- Every member of a deduplicated group comes from the group. -/
theorem dedupeGroup_subset {g : List UnifiedTask} {y : UnifiedTask}
    (h : y ∈ dedupeGroup g) : y ∈ g := by
  unfold dedupeGroup at h
  split at h
  · exact h
  · rename_i hlen
    cases hs : List.insertionSort dedupeRel g with
    | nil => rw [hs] at h; simp at h
    | cons best tl =>
      rw [hs] at h
      simp only [List.mem_singleton] at h
      subst h
      exact (List.perm_insertionSort dedupeRel g).mem_iff.mp
        (hs ▸ List.mem_cons_self ..)

/-- A non-empty group deduplicates to exactly one member, which is best in
the sort order. -/
theorem dedupeGroup_spec (g : List UnifiedTask) (hne : g ≠ []) :
    ∃ kept, dedupeGroup g = [kept] ∧ kept ∈ g ∧
      ∀ u ∈ g, dedupeLE kept u = true := by
  unfold dedupeGroup
  split
  · rename_i hlen
    obtain ⟨x, rfl⟩ := List.length_eq_one.mp hlen
    refine ⟨x, rfl, by simp, ?_⟩
    intro u hu
    simp only [List.mem_singleton] at hu
    exact hu ▸ dedupeLE_refl x
  · have hsorted := List.sorted_insertionSort dedupeRel g
    have hperm := List.perm_insertionSort dedupeRel g
    cases hs : List.insertionSort dedupeRel g with
    | nil =>
      rw [hs] at hperm
      have hlen := hperm.length_eq
      simp only [List.length_nil] at hlen
      exact absurd (List.eq_nil_of_length_eq_zero hlen.symm) hne
    | cons best tl =>
      rw [hs] at hsorted hperm
      refine ⟨best, rfl, hperm.mem_iff.mp (List.mem_cons_self ..), ?_⟩
      intro u hu
      rcases List.mem_cons.mp (hperm.mem_iff.mpr hu) with rfl | h
      · exact dedupeLE_refl u
      · exact List.rel_of_pairwise_cons hsorted h

/-- Accumulator form of `firstOccs` membership. -/
theorem firstOccs_aux_mem : ∀ (l acc : List PyStr) (x : PyStr),
    (x ∈ l.foldl (fun acc t => if t ∈ acc then acc else acc ++ [t]) acc ↔
      x ∈ acc ∨ x ∈ l) := by
  intro l
  induction l with
  | nil => intro acc x; simp
  | cons t l ih =>
    intro acc x
    simp only [List.foldl_cons]
    by_cases ht : t ∈ acc
    · rw [if_pos ht, ih]
      constructor
      · rintro (h | h)
        · exact Or.inl h
        · exact Or.inr (by simp [h])
      · rintro (h | h)
        · exact Or.inl h
        · rcases List.mem_cons.mp h with rfl | h
          · exact Or.inl ht
          · exact Or.inr h
    · rw [if_neg ht, ih]
      simp only [List.mem_append, List.mem_singleton, List.mem_cons]
      tauto

/-- `firstOccs` keeps exactly the keys of the input. -/
theorem firstOccs_mem (l : List PyStr) (x : PyStr) :
    x ∈ firstOccs l ↔ x ∈ l := by
  rw [firstOccs, firstOccs_aux_mem]
  simp

/-- Accumulator form of `firstOccs` distinctness. -/
theorem firstOccs_aux_nodup : ∀ (l acc : List PyStr), acc.Nodup →
    (l.foldl (fun acc t => if t ∈ acc then acc else acc ++ [t]) acc).Nodup := by
  intro l
  induction l with
  | nil => intro acc h; simpa using h
  | cons t l ih =>
    intro acc h
    simp only [List.foldl_cons]
    by_cases ht : t ∈ acc
    · rw [if_pos ht]; exact ih acc h
    · rw [if_neg ht]
      refine ih _ ?_
      simp [List.nodup_append, h, ht]

/-- `firstOccs` yields distinct keys. -/
theorem firstOccs_nodup (l : List PyStr) : (firstOccs l).Nodup :=
  firstOccs_aux_nodup l [] List.nodup_nil

/-- Members of a title group carry that title. -/
theorem dedupeGroup_title {tasks : List UnifiedTask} {tt : PyStr}
    {y : UnifiedTask}
    (h : y ∈ dedupeGroup (tasks.filter (fun t => pyStrip t.title == tt))) :
    pyStrip y.title = tt := by
  have := List.mem_filter.mp (dedupeGroup_subset h)
  simpa using this.2

/-- Away from a title, the grouped contributions filter to nothing. -/
theorem flatMap_filter_other (tasks : List UnifiedTask) (title : PyStr) :
    ∀ L : List PyStr, title ∉ L →
      (L.flatMap (fun tt =>
        dedupeGroup (tasks.filter (fun t => pyStrip t.title == tt)))).filter
          (fun t => pyStrip t.title == title) = [] := by
  intro L
  induction L with
  | nil => intro _; rfl
  | cons tt L ih =>
    intro hnot
    rw [List.flatMap_cons, List.filter_append,
      ih (fun h => hnot (by simp [h])), List.append_nil]
    rw [List.filter_eq_nil_iff]
    intro y hy
    have := dedupeGroup_title hy
    simp only [beq_iff_eq, this, decide_eq_true_eq]
    intro hcon
    exact hnot (by simp [← hcon])

/-- The filtered deduplicated list is the deduplication of the title
group, provided the key list is duplicate-free and contains the title. -/
theorem flatMap_filter_key (tasks : List UnifiedTask) (title : PyStr) :
    ∀ L : List PyStr, L.Nodup → title ∈ L →
      (L.flatMap (fun tt =>
        dedupeGroup (tasks.filter (fun t => pyStrip t.title == tt)))).filter
          (fun t => pyStrip t.title == title) =
        dedupeGroup (tasks.filter (fun t => pyStrip t.title == title)) := by
  intro L
  induction L with
  | nil => intro _ h; simp at h
  | cons tt L ih =>
    intro hnd hmem
    rw [List.flatMap_cons, List.filter_append]
    by_cases heq : tt = title
    · subst heq
      have hnot : tt ∉ L := (List.nodup_cons.mp hnd).1
      rw [flatMap_filter_other tasks tt L hnot, List.append_nil,
        List.filter_eq_self.mpr]
      intro y hy
      simp [dedupeGroup_title hy]
    · have hmem' : title ∈ L := by
        rcases List.mem_cons.mp hmem with h | h
        · exact absurd h.symm heq
        · exact h
      rw [ih (List.nodup_cons.mp hnd).2 hmem']
      have : (dedupeGroup (tasks.filter (fun t => pyStrip t.title == tt))).filter
          (fun t => pyStrip t.title == title) = [] := by
        rw [List.filter_eq_nil_iff]
        intro y hy
        simp [dedupeGroup_title hy, heq]
      rw [this, List.nil_append]

/-- Claim C4: after deduplication, every non-empty trimmed-title group has
exactly one retained member; the retained member belongs to the group, and
for groups of more than one task it maximises the ordered key (incomplete
before completed, then latest `due_date ?? modified_at`, dateless last) —
that is, it sorts no later than every group member. -/
theorem dedupe_keeps_one_best_per_title :
    ∀ (tasks : List UnifiedTask) (title : PyStr),
      tasks.filter (fun t => pyStrip t.title == title) ≠ [] →
      ∃ kept,
        (dedupe_apple_tasks tasks).filter
            (fun t => pyStrip t.title == title) = [kept] ∧
        kept ∈ tasks.filter (fun t => pyStrip t.title == title) ∧
        (1 < (tasks.filter (fun t => pyStrip t.title == title)).length →
          ∀ u ∈ tasks.filter (fun t => pyStrip t.title == title),
            dedupeLE kept u = true) := by
  intro tasks title hne
  have htitle : title ∈ firstOccs (tasks.map (fun t => pyStrip t.title)) := by
    rw [firstOccs_mem]
    obtain ⟨t, htmem⟩ := List.exists_mem_of_ne_nil _ hne
    have := List.mem_filter.mp htmem
    have heq : pyStrip t.title = title := by simpa using this.2
    exact heq ▸ List.mem_map_of_mem _ this.1
  obtain ⟨kept, hgroup, hmem, hbest⟩ :=
    dedupeGroup_spec (tasks.filter (fun t => pyStrip t.title == title)) hne
  refine ⟨kept, ?_, hmem, fun _ u hu => hbest u hu⟩
  show (dedupe_apple_tasks tasks).filter _ = _
  rw [dedupe_apple_tasks,
    if_pos (show DEDUPE_REPEATING_TASKS = true from rfl),
    flatMap_filter_key tasks title _ (firstOccs_nodup _) htitle, hgroup]

/-- Witness for C4 on a concrete two-member group: two tasks titled
"Bread", one completed and one incomplete; the incomplete one is kept. -/
theorem dedupe_keeps_one_best_per_title_witness :
    ∃ kept,
      (dedupe_apple_tasks
          [{ blankTask with title := s2p "Bread", completed := true },
           { blankTask with title := s2p "Bread" }]).filter
          (fun t => pyStrip t.title == s2p "Bread") = [kept] ∧
      kept ∈ ([{ blankTask with title := s2p "Bread", completed := true },
           { blankTask with title := s2p "Bread" }] : List UnifiedTask).filter
          (fun t => pyStrip t.title == s2p "Bread") ∧
      (1 < (([{ blankTask with title := s2p "Bread", completed := true },
           { blankTask with title := s2p "Bread" }] : List UnifiedTask).filter
          (fun t => pyStrip t.title == s2p "Bread")).length →
        ∀ u ∈ ([{ blankTask with title := s2p "Bread", completed := true },
           { blankTask with title := s2p "Bread" }] : List UnifiedTask).filter
          (fun t => pyStrip t.title == s2p "Bread"),
          dedupeLE kept u = true) :=
  dedupe_keeps_one_best_per_title _ _ (by decide)


/-! ## Claim C2: the conflict resolver -/

/-- Claim C2: for a paired `(host_task, device_task)` with optional sync
record, the resolver returns no action when the content hashes agree; an
update of the Device side carrying the Host content when only the Host hash
differs from the last-synced hash; the mirror image when only the Device
hash differs; and when both differ (with both `modified_at` present,
normalised to naive), the Host wins whenever the timestamps are within 60
seconds, otherwise the later timestamp wins. -/
theorem resolve_conflict_cases (a s : UnifiedTask) (rec : Option SyncRecord) :
    (a.content_hash = s.content_hash → resolve_conflict a s rec = none) ∧
    (a.content_hash ≠ recLastHash rec → s.content_hash = recLastHash rec →
      ∃ act, resolve_conflict a s rec = some act ∧
        carriesHostContentToDevice a s act) ∧
    (s.content_hash ≠ recLastHash rec → a.content_hash = recLastHash rec →
      ∃ act, resolve_conflict a s rec = some act ∧
        carriesDeviceContentToHost a s act) ∧
    (∀ ma ms : PyDateTime, a.modified_at = some ma → s.modified_at = some ms →
      a.content_hash ≠ s.content_hash → a.content_hash ≠ recLastHash rec →
      s.content_hash ≠ recLastHash rec →
      (|ma.naive - ms.naive| < 60 →
        ∃ act, resolve_conflict a s rec = some act ∧
          carriesHostContentToDevice a s act) ∧
      (60 ≤ |ma.naive - ms.naive| → ms.naive < ma.naive →
        ∃ act, resolve_conflict a s rec = some act ∧
          carriesHostContentToDevice a s act) ∧
      (60 ≤ |ma.naive - ms.naive| → ma.naive < ms.naive →
        ∃ act, resolve_conflict a s rec = some act ∧
          carriesDeviceContentToHost a s act)) := by
  refine ⟨?_, ?_, ?_, ?_⟩
  · intro h
    simp only [resolve_conflict, if_pos h]
  · intro ha hs
    have hne : a.content_hash ≠ s.content_hash := fun h => ha (h.trans hs)
    have n1 : ¬(a.content_hash = recLastHash rec ∧
        s.content_hash = recLastHash rec) := fun h => ha h.1
    have p2 : a.content_hash ≠ recLastHash rec ∧
        ¬ s.content_hash ≠ recLastHash rec := ⟨ha, fun h => h hs⟩
    refine ⟨(⟨"update", "supernote", copyAppleOntoSupernote a s,
      "Changed in Apple Reminders"⟩ : SyncAction), ?_,
      rfl, rfl, rfl, rfl, rfl, rfl, rfl, rfl, rfl⟩
    simp only [resolve_conflict, if_neg hne, if_neg n1, if_pos p2]
  · intro hs ha
    have hne : a.content_hash ≠ s.content_hash := fun h => hs (h.symm.trans ha)
    have n1 : ¬(a.content_hash = recLastHash rec ∧
        s.content_hash = recLastHash rec) := fun h => hs h.2
    have n2 : ¬(a.content_hash ≠ recLastHash rec ∧
        ¬ s.content_hash ≠ recLastHash rec) := fun h => h.1 ha
    have p3 : s.content_hash ≠ recLastHash rec ∧
        ¬ a.content_hash ≠ recLastHash rec := ⟨hs, fun h => h ha⟩
    refine ⟨(⟨"update", "apple", copySupernoteOntoApple a s,
      "Changed in Supernote"⟩ : SyncAction), ?_,
      rfl, rfl, rfl, rfl, rfl, rfl, rfl, rfl, rfl⟩
    simp only [resolve_conflict, if_neg hne, if_neg n1, if_neg n2, if_pos p3]
  · intro ma ms hma hms hne ha hs
    have n1 : ¬(a.content_hash = recLastHash rec ∧
        s.content_hash = recLastHash rec) := fun h => ha h.1
    have n2 : ¬(a.content_hash ≠ recLastHash rec ∧
        ¬ s.content_hash ≠ recLastHash rec) := fun h => h.2 hs
    have n3 : ¬(s.content_hash ≠ recLastHash rec ∧
        ¬ a.content_hash ≠ recLastHash rec) := fun h => h.2 ha
    have hge : (ma.replaceTzNone.ge ms.replaceTzNone = true) ↔
        ms.naive ≤ ma.naive := by
      simp [PyDateTime.ge, PyDateTime.replaceTzNone, PyDateTime.key]
    have base : resolve_conflict a s rec =
        (if |ma.naive - ms.naive| < 60 ∨ ms.naive ≤ ma.naive then
          some ⟨"update", "supernote", copyAppleOntoSupernote a s,
                "Conflict: Apple Reminders wins (more recent)"⟩
        else
          some ⟨"update", "apple", copySupernoteOntoApple a s,
                "Conflict: Supernote wins (more recent)"⟩) := by
      simp only [resolve_conflict, if_neg hne, if_neg n1, if_neg n2, if_neg n3,
        hma, hms]
      exact if_congr (or_congr Iff.rfl hge) rfl rfl
    refine ⟨?_, ?_, ?_⟩
    · intro hd
      refine ⟨(⟨"update", "supernote", copyAppleOntoSupernote a s,
        "Conflict: Apple Reminders wins (more recent)"⟩ : SyncAction), ?_,
        rfl, rfl, rfl, rfl, rfl, rfl, rfl, rfl, rfl⟩
      rw [base, if_pos (Or.inl hd)]
    · intro hd hlt
      refine ⟨(⟨"update", "supernote", copyAppleOntoSupernote a s,
        "Conflict: Apple Reminders wins (more recent)"⟩ : SyncAction), ?_,
        rfl, rfl, rfl, rfl, rfl, rfl, rfl, rfl, rfl⟩
      rw [base, if_pos (Or.inr (le_of_lt hlt))]
    · intro hd hlt
      refine ⟨(⟨"update", "apple", copySupernoteOntoApple a s,
        "Conflict: Supernote wins (more recent)"⟩ : SyncAction), ?_,
        rfl, rfl, rfl, rfl, rfl, rfl, rfl, rfl, rfl⟩
      rw [base, if_neg]
      intro hcon
      rcases hcon with h | h
      · omega
      · omega

/-- Witness for C2: a Host-edited pair whose record still holds the Device
hash resolves to an update of the Device side carrying the Host content. -/
theorem resolve_conflict_cases_witness :
    ∃ act,
      resolve_conflict
        { blankTask with
            title := s2p "Call Alice"
            notes := s2p "10am" }
        { blankTask with
            title := s2p "Call Alice"
            supernote_id := some (s2p "S7") }
        (some ⟨s2p "sid-7", some (s2p "A7"), some (s2p "S7"),
          ({ blankTask with
              title := s2p "Call Alice"
              supernote_id := some (s2p "S7") } : UnifiedTask).content_hash,
          0, "both"⟩) = some act ∧
      carriesHostContentToDevice
        { blankTask with
            title := s2p "Call Alice"
            notes := s2p "10am" }
        { blankTask with
            title := s2p "Call Alice"
            supernote_id := some (s2p "S7") }
        act :=
  (resolve_conflict_cases _ _ _).2.1 (by decide) rfl


/-! ## Claim C9: exception policy of action execution -/

/-- Closed form of the action loop: every action is attempted and the
errors of the failing ones accumulate in order. -/
theorem run_actions_caught_spec (dispatch : SyncAction → Except String Unit) :
    ∀ (actions : List SyncAction) (res : SyncResultM),
      run_actions_caught dispatch actions res =
        ⟨res.errors ++ actions.filterMap (actionError dispatch),
         res.attempted + actions.length⟩ := by
  intro actions
  induction actions with
  | nil => intro res; simp [run_actions_caught]
  | cons a l ih =>
    intro res
    have hstep : run_actions_caught dispatch (a :: l) res =
        run_actions_caught dispatch l (execute_action_caught dispatch res a) :=
      rfl
    rw [hstep, ih]
    unfold execute_action_caught actionError
    cases h : dispatch a with
    | ok u =>
      simp only [List.filterMap_cons, h, List.length_cons]
      exact congrArg (SyncResultM.mk _) (by omega)
    | error e =>
      simp only [List.filterMap_cons, h, List.length_cons, List.append_assoc,
        List.singleton_append]
      exact congrArg₂ SyncResultM.mk rfl (by omega)

/-- Claim C9: under the engine's exception policy, a failing action only
contributes its message to the recorded errors and does not stop the loop —
every action is attempted and the recorded errors are exactly the messages
of the failing actions in order — while a failure raised before action
execution (for example while loading tasks) ends the run with that single
message recorded and no action attempted, rather than propagating to the
caller. -/
theorem error_handling_policy :
    (∀ (dispatch : SyncAction → Except String Unit)
        (actions : List SyncAction),
      run_sync_caught (Except.ok actions) dispatch =
        ⟨actions.filterMap (actionError dispatch), actions.length⟩) ∧
    (∀ (e : String) (dispatch : SyncAction → Except String Unit),
      run_sync_caught (Except.error e) dispatch = ⟨[e], 0⟩) := by
  constructor
  · intro dispatch actions
    show run_actions_caught dispatch actions ⟨[], 0⟩ = _
    rw [run_actions_caught_spec]
    simp
  · intro e dispatch
    rfl


/-! ## Claim C10: absent completion date defeats the age filter -/

/-- One step of the first step-3 loop keeps the matched sets and the table,
and extends the actions by at most one element. -/
theorem step3AppleStep_state (env : RunEnv) (st : DetectSt) (t : UnifiedTask) :
    (step3AppleStep env st t).matchedApple = st.matchedApple ∧
    (step3AppleStep env st t).matchedSupernote = st.matchedSupernote ∧
    (step3AppleStep env st t).db = st.db ∧
    ∃ suf, (step3AppleStep env st t).actions = st.actions ++ suf := by
  unfold step3AppleStep
  split
  · split
    · exact ⟨rfl, rfl, rfl, [], by simp⟩
    · exact ⟨rfl, rfl, rfl, _, rfl⟩
  · exact ⟨rfl, rfl, rfl, [], by simp⟩

/-- The first step-3 loop keeps the matched sets and the table, and only
appends actions. -/
theorem detectStep3Apple_state (env : RunEnv) :
    ∀ (tasks : List UnifiedTask) (st : DetectSt),
      (detectStep3Apple env tasks st).matchedApple = st.matchedApple ∧
      (detectStep3Apple env tasks st).matchedSupernote = st.matchedSupernote ∧
      (detectStep3Apple env tasks st).db = st.db ∧
      ∃ suf, (detectStep3Apple env tasks st).actions = st.actions ++ suf := by
  intro tasks
  induction tasks with
  | nil => intro st; exact ⟨rfl, rfl, rfl, [], by simp [detectStep3Apple]⟩
  | cons a l ih =>
    intro st
    have hfold : detectStep3Apple env (a :: l) st =
        detectStep3Apple env l (step3AppleStep env st a) := rfl
    obtain ⟨hm1, hm2, hdb, s1, hs1⟩ := step3AppleStep_state env st a
    obtain ⟨im1, im2, idb, s2, hs2⟩ := ih (step3AppleStep env st a)
    refine ⟨hfold ▸ im1.trans hm1, hfold ▸ im2.trans hm2,
      hfold ▸ idb.trans hdb, s1 ++ s2, ?_⟩
    rw [hfold, hs2, hs1, List.append_assoc]

/-- One step of the second step-3 loop keeps the matched sets and the
table, and extends the actions by at most one element. -/
theorem step3SupernoteStep_state (env : RunEnv) (st : DetectSt)
    (t : UnifiedTask) :
    (step3SupernoteStep env st t).matchedApple = st.matchedApple ∧
    (step3SupernoteStep env st t).matchedSupernote = st.matchedSupernote ∧
    (step3SupernoteStep env st t).db = st.db ∧
    ∃ suf, (step3SupernoteStep env st t).actions = st.actions ++ suf := by
  unfold step3SupernoteStep
  split
  · exact ⟨rfl, rfl, rfl, _, rfl⟩
  · exact ⟨rfl, rfl, rfl, [], by simp⟩

/-- The second step-3 loop keeps the matched sets and the table, and only
appends actions. -/
theorem detectStep3Supernote_state (env : RunEnv) :
    ∀ (tasks : List UnifiedTask) (st : DetectSt),
      (detectStep3Supernote env tasks st).matchedApple = st.matchedApple ∧
      (detectStep3Supernote env tasks st).matchedSupernote = st.matchedSupernote ∧
      (detectStep3Supernote env tasks st).db = st.db ∧
      ∃ suf, (detectStep3Supernote env tasks st).actions = st.actions ++ suf := by
  intro tasks
  induction tasks with
  | nil => intro st; exact ⟨rfl, rfl, rfl, [], by simp [detectStep3Supernote]⟩
  | cons a l ih =>
    intro st
    have hfold : detectStep3Supernote env (a :: l) st =
        detectStep3Supernote env l (step3SupernoteStep env st a) := rfl
    obtain ⟨hm1, hm2, hdb, s1, hs1⟩ := step3SupernoteStep_state env st a
    obtain ⟨im1, im2, idb, s2, hs2⟩ := ih (step3SupernoteStep env st a)
    refine ⟨hfold ▸ im1.trans hm1, hfold ▸ im2.trans hm2,
      hfold ▸ idb.trans hdb, s1 ++ s2, ?_⟩
    rw [hfold, hs2, hs1, List.append_assoc]

/-- A still-unmatched Apple task that the age filter does not skip yields a
`create` on the Supernote side in the first step-3 loop. -/
theorem detectStep3Apple_creates (env : RunEnv) :
    ∀ (tasks : List UnifiedTask) (st : DetectSt) (t : UnifiedTask),
      t ∈ tasks → optMem st.matchedApple t.apple_id = false →
      should_skip_old_completed_task env.nowUtc t false = false →
      ∃ sid, (⟨"create", "supernote", { t with sync_id := sid },
          "New in Apple Reminders"⟩ : SyncAction) ∈
        (detectStep3Apple env tasks st).actions := by
  intro tasks
  induction tasks with
  | nil => intro st t h; simp at h
  | cons a l ih =>
    intro st t hmem hunmatched hskip
    have hfold : detectStep3Apple env (a :: l) st =
        detectStep3Apple env l (step3AppleStep env st a) := rfl
    rcases List.mem_cons.mp hmem with rfl | hl
    · have hstep : step3AppleStep env st t =
          { st with
            fresh := st.fresh + 1
            actions := st.actions ++
              [⟨"create", "supernote", { t with sync_id := env.uuid st.fresh },
                "New in Apple Reminders"⟩] } := by
        unfold step3AppleStep
        rw [if_pos (by simp [hunmatched]), if_neg (by simp [hskip])]
      obtain ⟨-, -, -, suf, hsuf⟩ :=
        detectStep3Apple_state env l (step3AppleStep env st t)
      refine ⟨env.uuid st.fresh, ?_⟩
      rw [hfold, hsuf, hstep]
      simp
    · obtain ⟨hm1, -, -, -⟩ := step3AppleStep_state env st a
      rw [hfold]
      exact ih (step3AppleStep env st a) t hl (hm1 ▸ hunmatched) hskip

/-- Claim C10: the old-completed filter returns `False` whenever the
completion date is absent, whatever the current time and record status;
consequently a still-unmatched completed Apple task without completion date
is not excluded by the age filter and yields a `create` on the Supernote
side in step 3 of change detection. -/
theorem no_completion_date_never_skipped :
    (∀ (nowUtc : Int) (task : UnifiedTask) (hasRec : Bool),
      task.completion_date = none →
      should_skip_old_completed_task nowUtc task hasRec = false) ∧
    (∀ (env : RunEnv) (supernote_tasks apple_tasks : List UnifiedTask)
        (st : DetectSt) (t : UnifiedTask),
      t ∈ apple_tasks → optMem st.matchedApple t.apple_id = false →
      t.completion_date = none →
      ∃ sid, (⟨"create", "supernote", { t with sync_id := sid },
          "New in Apple Reminders"⟩ : SyncAction) ∈
        (detectStep3 env supernote_tasks apple_tasks st).actions) := by
  have h1 : ∀ (nowUtc : Int) (task : UnifiedTask) (hasRec : Bool),
      task.completion_date = none →
      should_skip_old_completed_task nowUtc task hasRec = false := by
    intro nowUtc task hasRec h
    unfold should_skip_old_completed_task
    rw [h]
    split
    · rfl
    · split <;> rfl
  refine ⟨h1, ?_⟩
  intro env supernote_tasks apple_tasks st t hmem hunmatched hnone
  obtain ⟨sid, hact⟩ := detectStep3Apple_creates env apple_tasks st t hmem
    hunmatched (h1 env.nowUtc t false hnone)
  obtain ⟨-, -, -, suf, hsuf⟩ :=
    detectStep3Supernote_state env supernote_tasks
      (detectStep3Apple env apple_tasks st)
  refine ⟨sid, ?_⟩
  show _ ∈ (detectStep3Supernote env supernote_tasks
    (detectStep3Apple env apple_tasks st)).actions
  rw [hsuf]
  exact List.mem_append_left _ hact

/-- Witness for C10: a completed, dateless task is not skipped even with a
sync record present, and as sole unmatched Apple task it produces the
Supernote-side `create`. -/
theorem no_completion_date_never_skipped_witness :
    should_skip_old_completed_task 86400
      { blankTask with title := s2p "Old", completed := true } true = false ∧
    ∃ sid, (⟨"create", "supernote",
        { ({ blankTask with title := s2p "Old", completed := true } :
            UnifiedTask) with sync_id := sid },
        "New in Apple Reminders"⟩ : SyncAction) ∈
      (detectStep3 ⟨86400, fun _ => s2p "u0"⟩ []
        [{ blankTask with title := s2p "Old", completed := true }]
        ⟨[], [], [], [], 0⟩).actions :=
  ⟨no_completion_date_never_skipped.1 86400
      { blankTask with title := s2p "Old", completed := true } true rfl,
   no_completion_date_never_skipped.2 ⟨86400, fun _ => s2p "u0"⟩ []
      [{ blankTask with title := s2p "Old", completed := true }]
      ⟨[], [], [], [], 0⟩
      { blankTask with title := s2p "Old", completed := true }
      (List.mem_cons_self ..) rfl rfl⟩


/-! ## Claim C8: the old-completed filter and what it does not protect -/

/-- A successful dict lookup comes from an entry whose key matches. -/
theorem alGet_mem {κ ν : Type} [BEq κ] {m : List (κ × ν)} {k : κ} {v : ν}
    (h : alGet m k = some v) : ∃ q ∈ m, q.2 = v ∧ (q.1 == k) = true := by
  unfold alGet at h
  cases hf : m.find? (fun p => p.1 == k) with
  | none => rw [hf] at h; cases h
  | some q =>
    rw [hf] at h
    have hp := List.find?_some hf
    exact ⟨q, List.mem_of_find?_eq_some hf, by simpa using h, hp⟩

/-- A member of an upserted table is an old row or the new row. -/
theorem upsert_record_mem {db : List SyncRecord} {r x : SyncRecord}
    (h : x ∈ upsert_record db r) : x ∈ db ∨ x = r := by
  unfold upsert_record at h
  rcases List.mem_append.mp h with h | h
  · exact Or.inl (List.mem_of_mem_filter h)
  · exact Or.inr (by simpa using h)

/-- A member of a dict after assignment is an old entry or the assigned
pair. -/
theorem alInsert_mem {κ ν : Type} [BEq κ] {m : List (κ × ν)} {k : κ} {v : ν}
    {p : κ × ν} (h : p ∈ alInsert m k v) : p ∈ m ∨ p = (k, v) := by
  unfold alInsert at h
  split at h
  · rcases List.mem_map.mp h with ⟨q, hq, hqe⟩
    by_cases hk : (q.1 == k) = true
    · rw [if_pos hk] at hqe
      exact Or.inr hqe.symm
    · rw [if_neg hk] at hqe
      exact Or.inl (hqe ▸ hq)
  · rcases List.mem_append.mp h with h | h
    · exact Or.inl h
    · exact Or.inr (by simpa using h)

/-- Whatever branch the resolver takes, the emitted task keeps the Apple
side's `apple_id`. -/
theorem resolve_conflict_apple_id {a s : UnifiedTask} {r : Option SyncRecord}
    {act : SyncAction} (h : resolve_conflict a s r = some act) :
    act.task.apple_id = a.apple_id := by
  simp only [resolve_conflict] at h
  split_ifs at h
  all_goals cases h
  all_goals rfl

/-- One step of the title-match fold only contributes pairs whose Apple id
belongs to an Apple task of the matching lowered title. -/
theorem matchTitleStep_mem {apple_tasks : List UnifiedTask}
    {m : List (Option PyStr × Option PyStr)} {sn : UnifiedTask}
    {p : Option PyStr × Option PyStr} (h : p ∈ matchTitleStep apple_tasks m sn) :
    p ∈ m ∨ ∃ a ∈ apple_tasks, p.2 = a.apple_id ∧
      pyLower (pyStrip a.title) = pyLower (pyStrip sn.title) := by
  simp only [matchTitleStep] at h
  split at h
  · rename_i a heq
    rcases alInsert_mem h with h | h
    · exact Or.inl h
    · have ha : a ∈ apple_tasks.filter
          (fun t => pyLower (pyStrip t.title) == pyLower (pyStrip sn.title)) := by
        rw [heq]
        exact List.mem_cons_self ..
      have := List.mem_filter.mp ha
      exact Or.inr ⟨a, this.1, by rw [h], by simpa using this.2⟩
  · exact Or.inl h

/-- Members of the title-match fold, relative to an accumulator. -/
theorem match_by_title_fold_mem (apple_tasks : List UnifiedTask) :
    ∀ (l : List UnifiedTask) (m : List (Option PyStr × Option PyStr))
      (p : Option PyStr × Option PyStr),
      p ∈ l.foldl (matchTitleStep apple_tasks) m →
      p ∈ m ∨ ∃ sn ∈ l, ∃ a ∈ apple_tasks, p.2 = a.apple_id ∧
        pyLower (pyStrip a.title) = pyLower (pyStrip sn.title) := by
  intro l
  induction l with
  | nil => intro m p h; exact Or.inl h
  | cons sn l ih =>
    intro m p h
    rcases ih (matchTitleStep apple_tasks m sn) p h with h | h
    · rcases matchTitleStep_mem h with h | ⟨a, ha, hpa, htt⟩
      · exact Or.inl h
      · exact Or.inr ⟨sn, List.mem_cons_self .., a, ha, hpa, htt⟩
    · obtain ⟨sn', hsn', rest⟩ := h
      exact Or.inr ⟨sn', List.mem_cons_of_mem _ hsn', rest⟩

/-- Every title-match pair carries the Apple id of an Apple task whose
lowered stripped title equals that of a Supernote task. -/
theorem match_by_title_mem {supernote_tasks apple_tasks : List UnifiedTask}
    {p : Option PyStr × Option PyStr}
    (h : p ∈ match_by_title supernote_tasks apple_tasks) :
    ∃ sn ∈ supernote_tasks, ∃ a ∈ apple_tasks, p.2 = a.apple_id ∧
      pyLower (pyStrip a.title) = pyLower (pyStrip sn.title) := by
  rcases match_by_title_fold_mem apple_tasks supernote_tasks [] p h with h | h
  · cases h
  · exact h

/-- One step-1 iteration over a record not referencing `aid` keeps the
table and emits no action whose task carries `aid`, provided the id indexes
are consistent. -/
theorem detect1Step_preserves
    {apple_by_id supernote_by_id : List (PyStr × UnifiedTask)} {aid : PyStr}
    {st : DetectSt} {record : SyncRecord}
    (hrec : record.apple_id ≠ some aid)
    (hmapA : ∀ kt ∈ apple_by_id, kt.2.apple_id = some kt.1)
    (hmapS : ∀ kt ∈ supernote_by_id, kt.2.apple_id = none)
    (hacts : ∀ act ∈ st.actions, act.task.apple_id ≠ some aid) :
    (∀ act ∈ (detect1Step apple_by_id supernote_by_id st record).actions,
      act.task.apple_id ≠ some aid) ∧
    (detect1Step apple_by_id supernote_by_id st record).db = st.db := by
  have hA : ∀ a, recLookupA apple_by_id record = some a →
      a.apple_id ≠ some aid := by
    intro a h
    unfold recLookupA at h
    split at h
    · rename_i k hra
      split at h
      · cases h
      · obtain ⟨q, hqmem, hqv, hqk⟩ := alGet_mem h
        have hq := hmapA q hqmem
        rw [← hqv, hq, eq_of_beq hqk]
        intro hcon
        apply hrec
        rw [hra]
        exact hcon
    · cases h
  have hS : ∀ s, recLookupS supernote_by_id record = some s →
      s.apple_id = none := by
    intro s h
    unfold recLookupS at h
    split at h
    · rename_i k hrs
      split at h
      · cases h
      · obtain ⟨q, hqmem, hqv, -⟩ := alGet_mem h
        rw [← hqv]
        exact hmapS q hqmem
    · cases h
  unfold detect1Step
  split
  · rename_i a s ha hs
    refine ⟨?_, rfl⟩
    intro act hmem
    rcases List.mem_append.mp hmem with h | h
    · exact hacts act h
    · have hr : resolve_conflict { a with sync_id := record.sync_id }
          { s with sync_id := record.sync_id } (some record) = some act :=
        Option.mem_def.mp (Option.mem_toList.mp h)
      rw [resolve_conflict_apple_id hr]
      exact hA a ha
  · rename_i a ha hs
    refine ⟨?_, rfl⟩
    intro act hmem
    rcases List.mem_append.mp hmem with h | h
    · exact hacts act h
    · have hact : act = ⟨"delete", "apple", a, "Deleted from Supernote"⟩ := by
        simpa using h
      rw [hact]
      exact hA a ha
  · rename_i s ha hs
    refine ⟨?_, rfl⟩
    intro act hmem
    rcases List.mem_append.mp hmem with h | h
    · exact hacts act h
    · have hact : act = ⟨"delete", "supernote", s,
          "Deleted from Apple Reminders"⟩ := by
        simpa using h
      rw [hact, hS s hs]
      intro hcon
      cases hcon
  · exact ⟨hacts, rfl⟩

/-- Step 1 over records none of which references `aid` keeps the table and
emits no action whose task carries `aid`. -/
theorem detectStep1_preserves
    {apple_by_id supernote_by_id : List (PyStr × UnifiedTask)} {aid : PyStr}
    (hmapA : ∀ kt ∈ apple_by_id, kt.2.apple_id = some kt.1)
    (hmapS : ∀ kt ∈ supernote_by_id, kt.2.apple_id = none) :
    ∀ (records : List SyncRecord) (st : DetectSt),
      (∀ r ∈ records, r.apple_id ≠ some aid) →
      (∀ act ∈ st.actions, act.task.apple_id ≠ some aid) →
      (∀ act ∈ (detectStep1 apple_by_id supernote_by_id records st).actions,
        act.task.apple_id ≠ some aid) ∧
      (detectStep1 apple_by_id supernote_by_id records st).db = st.db := by
  intro records
  induction records with
  | nil => intro st _ hacts; exact ⟨hacts, rfl⟩
  | cons r l ih =>
    intro st hrecs hacts
    have hfold : detectStep1 apple_by_id supernote_by_id (r :: l) st =
        detectStep1 apple_by_id supernote_by_id l
          (detect1Step apple_by_id supernote_by_id st r) := rfl
    obtain ⟨h1a, h1d⟩ := detect1Step_preserves
      (hrecs r (List.mem_cons_self ..)) hmapA hmapS hacts
    obtain ⟨h2a, h2d⟩ := ih (detect1Step apple_by_id supernote_by_id st r)
      (fun q hq => hrecs q (List.mem_cons_of_mem _ hq)) h1a
    exact ⟨hfold ▸ h2a, hfold ▸ h2d.trans h1d⟩

/-- One step-2 iteration over a pair not carrying `aid` emits no action
whose task carries `aid` and inserts no record carrying `aid`. -/
theorem detect2Step_preserves (env : RunEnv)
    {apple_by_id supernote_by_id : List (PyStr × UnifiedTask)} {aid : PyStr}
    {st : DetectSt} {m : Option PyStr × Option PyStr}
    (hm : m.2 ≠ some aid)
    (hmapA : ∀ kt ∈ apple_by_id, kt.2.apple_id = some kt.1)
    (hacts : ∀ act ∈ st.actions, act.task.apple_id ≠ some aid)
    (hdb : ∀ r ∈ st.db, r.apple_id ≠ some aid) :
    (∀ act ∈ (detect2Step env apple_by_id supernote_by_id st m).actions,
      act.task.apple_id ≠ some aid) ∧
    (∀ r ∈ (detect2Step env apple_by_id supernote_by_id st m).db,
      r.apple_id ≠ some aid) := by
  unfold detect2Step
  split
  · rename_i sid aid0 hm1 hm2
    have haid0 : aid0 ≠ aid := by
      intro he
      exact hm (by rw [hm2, he])
    split
    · rename_i supernote_task apple_task hl1 hl2
      have happle : apple_task.apple_id = some aid0 := by
        obtain ⟨q, hqmem, hqv, hqk⟩ := alGet_mem hl2
        rw [← hqv, hmapA q hqmem, eq_of_beq hqk]
      split
      · rename_i action hr
        refine ⟨?_, hdb⟩
        intro act hmem
        rcases List.mem_append.mp hmem with h | h
        · exact hacts act h
        · have hact : act = action := by simpa using h
          rw [hact, resolve_conflict_apple_id hr]
          show apple_task.apple_id ≠ some aid
          rw [happle]
          intro hcon
          exact haid0 (by simpa using hcon)
      · refine ⟨hacts, ?_⟩
        intro r hmem
        rcases upsert_record_mem hmem with h | h
        · exact hdb r h
        · rw [h]
          intro hcon
          exact haid0 (by simpa using hcon)
    · exact ⟨hacts, hdb⟩
  · exact ⟨hacts, hdb⟩

/-- Step 2 over pairs none of which carries `aid` emits no action whose
task carries `aid` and inserts no record carrying `aid`. -/
theorem detectStep2_preserves (env : RunEnv)
    {apple_by_id supernote_by_id : List (PyStr × UnifiedTask)} {aid : PyStr}
    (hmapA : ∀ kt ∈ apple_by_id, kt.2.apple_id = some kt.1) :
    ∀ (pairs : List (Option PyStr × Option PyStr)) (st : DetectSt),
      (∀ p ∈ pairs, p.2 ≠ some aid) →
      (∀ act ∈ st.actions, act.task.apple_id ≠ some aid) →
      (∀ r ∈ st.db, r.apple_id ≠ some aid) →
      (∀ act ∈ (detectStep2 env apple_by_id supernote_by_id pairs st).actions,
        act.task.apple_id ≠ some aid) ∧
      (∀ r ∈ (detectStep2 env apple_by_id supernote_by_id pairs st).db,
        r.apple_id ≠ some aid) := by
  intro pairs
  induction pairs with
  | nil => intro st _ hacts hdb; exact ⟨hacts, hdb⟩
  | cons p l ih =>
    intro st hpairs hacts hdb
    have hfold : detectStep2 env apple_by_id supernote_by_id (p :: l) st =
        detectStep2 env apple_by_id supernote_by_id l
          (detect2Step env apple_by_id supernote_by_id st p) := rfl
    obtain ⟨h1a, h1d⟩ := detect2Step_preserves env
      (hpairs p (List.mem_cons_self ..)) hmapA hacts hdb
    obtain ⟨h2a, h2d⟩ := ih (detect2Step env apple_by_id supernote_by_id st p)
      (fun q hq => hpairs q (List.mem_cons_of_mem _ hq)) h1a h1d
    exact ⟨hfold ▸ h2a, hfold ▸ h2d⟩

/-- The first step-3 loop emits no action carrying `aid` when every Apple
task with that id falls to the old-completed filter. -/
theorem detectStep3Apple_preserves (env : RunEnv) {aid : PyStr} :
    ∀ (tasks : List UnifiedTask) (st : DetectSt),
      (∀ t ∈ tasks, t.apple_id = some aid →
        should_skip_old_completed_task env.nowUtc t false = true) →
      (∀ act ∈ st.actions, act.task.apple_id ≠ some aid) →
      ∀ act ∈ (detectStep3Apple env tasks st).actions,
        act.task.apple_id ≠ some aid := by
  intro tasks
  induction tasks with
  | nil => intro st _ hacts; exact hacts
  | cons t l ih =>
    intro st htasks hacts
    have hfold : detectStep3Apple env (t :: l) st =
        detectStep3Apple env l (step3AppleStep env st t) := rfl
    have hstep : ∀ act ∈ (step3AppleStep env st t).actions,
        act.task.apple_id ≠ some aid := by
      unfold step3AppleStep
      split
      · split
        · exact hacts
        · rename_i hskip
          intro act hmem
          rcases List.mem_append.mp hmem with h | h
          · exact hacts act h
          · have hact : act = ⟨"create", "supernote",
                { t with sync_id := env.uuid st.fresh },
                "New in Apple Reminders"⟩ := by simpa using h
            rw [hact]
            show t.apple_id ≠ some aid
            intro hcon
            exact hskip (htasks t (List.mem_cons_self ..) hcon)
      · exact hacts
    intro act hmem
    rw [hfold] at hmem
    exact ih (step3AppleStep env st t)
      (fun q hq => htasks q (List.mem_cons_of_mem _ hq)) hstep act hmem

/-- The second step-3 loop emits no action carrying `aid` when no Supernote
task carries an Apple id. -/
theorem detectStep3Supernote_preserves (env : RunEnv) {aid : PyStr} :
    ∀ (tasks : List UnifiedTask) (st : DetectSt),
      (∀ s ∈ tasks, s.apple_id = none) →
      (∀ act ∈ st.actions, act.task.apple_id ≠ some aid) →
      ∀ act ∈ (detectStep3Supernote env tasks st).actions,
        act.task.apple_id ≠ some aid := by
  intro tasks
  induction tasks with
  | nil => intro st _ hacts; exact hacts
  | cons t l ih =>
    intro st htasks hacts
    have hfold : detectStep3Supernote env (t :: l) st =
        detectStep3Supernote env l (step3SupernoteStep env st t) := rfl
    have hstep : ∀ act ∈ (step3SupernoteStep env st t).actions,
        act.task.apple_id ≠ some aid := by
      unfold step3SupernoteStep
      split
      · intro act hmem
        rcases List.mem_append.mp hmem with h | h
        · exact hacts act h
        · have hact : act = ⟨"create", "apple",
              { t with sync_id := env.uuid st.fresh },
              "New in Supernote"⟩ := by simpa using h
          rw [hact]
          show t.apple_id ≠ some aid
          rw [htasks t (List.mem_cons_self ..)]
          intro hcon
          cases hcon
      · exact hacts
    intro act hmem
    rw [hfold] at hmem
    exact ih (step3SupernoteStep env st t)
      (fun q hq => htasks q (List.mem_cons_of_mem _ hq)) hstep act hmem

/-- Counterexample to C8 as stated: `c8apple` is exactly the kind of task
the old-completed filter covers (completed, record-free, 200 days old), yet
a run over this state inserts a sync record for it, because the title
bootstrap of step 2 pairs it with the same-titled Supernote task before
step 3 ever consults the filter. -/
theorem title_bootstrap_inserts_record_for_old_completed :
    should_skip_old_completed_task c8env.nowUtc c8apple false = true ∧
    ((detect_changes c8env 0
        (index_by_system_id_supernote [] [c8sn]).1
        (index_by_system_id_apple [] [c8apple]).1
        (index_by_system_id_supernote [] [c8sn]).2
        (index_by_system_id_apple [] [c8apple]).2
        []).db).map (fun r => (r.apple_id, r.supernote_id)) =
      [(some (s2p "A9"), some (s2p "S9"))] := by
  constructor
  · decide
  · decide

/-- Claim C8 (corrected): a completed Apple task older than 180 days with
no sync record is untouched by change detection — no emitted action and no
inserted record carries its id — provided additionally that no Supernote
task shares its lowered stripped title (otherwise the step-2 title
bootstrap reaches it first), that no other Apple task carries its id, that
the id indexes are consistent, and that Supernote tasks carry no Apple
id. -/
theorem old_completed_unpaired_untouched
    (env : RunEnv) (fresh0 : Nat)
    (supernote_tasks apple_tasks : List UnifiedTask)
    (supernote_by_id apple_by_id : List (PyStr × UnifiedTask))
    (db : List SyncRecord) (c : UnifiedTask) (aid : PyStr) (cd : PyDateTime)
    (hc : c ∈ apple_tasks)
    (hcompleted : c.completed = true)
    (hcd : c.completion_date = some cd)
    (hold : cd.lt ⟨(pyNow env.nowUtc cd.off).naive -
        COMPLETED_TASK_MAX_AGE_DAYS * 86400, (pyNow env.nowUtc cd.off).off⟩ =
      true)
    (haid : c.apple_id = some aid)
    (hnorec : ∀ r ∈ db, r.apple_id ≠ some aid)
    (hunique : ∀ t ∈ apple_tasks, t.apple_id = some aid → t = c)
    (hmapA : ∀ kt ∈ apple_by_id, kt.2.apple_id = some kt.1)
    (hmapS : ∀ kt ∈ supernote_by_id, kt.2.apple_id = none)
    (hsnone : ∀ s ∈ supernote_tasks, s.apple_id = none)
    (hnotitle : ∀ s ∈ supernote_tasks,
      pyLower (pyStrip s.title) ≠ pyLower (pyStrip c.title)) :
    (∀ act ∈ (detect_changes env fresh0 supernote_tasks apple_tasks
        supernote_by_id apple_by_id db).actions,
      act.task.apple_id ≠ some aid) ∧
    (∀ r ∈ (detect_changes env fresh0 supernote_tasks apple_tasks
        supernote_by_id apple_by_id db).db,
      r.apple_id ≠ some aid) := by
  have hskipc : should_skip_old_completed_task env.nowUtc c false = true := by
    unfold should_skip_old_completed_task
    rw [if_neg (by simp [hcompleted]), if_neg (by simp), hcd]
    exact hold
  have hD : detect_changes env fresh0 supernote_tasks apple_tasks
      supernote_by_id apple_by_id db =
      detectStep3 env supernote_tasks apple_tasks
        (detectStep2 env apple_by_id supernote_by_id
          (match_by_title
            (supernote_tasks.filter (fun t => ¬ optMem
              (detectStep1 apple_by_id supernote_by_id db
                ⟨[], [], [], db, fresh0⟩).matchedSupernote t.supernote_id))
            (apple_tasks.filter (fun t => ¬ optMem
              (detectStep1 apple_by_id supernote_by_id db
                ⟨[], [], [], db, fresh0⟩).matchedApple t.apple_id)))
          (detectStep1 apple_by_id supernote_by_id db
            ⟨[], [], [], db, fresh0⟩)) := rfl
  obtain ⟨h1a, h1d⟩ := detectStep1_preserves hmapA hmapS db
    ⟨[], [], [], db, fresh0⟩ hnorec (by intro act h; cases h)
  have hpairs : ∀ p ∈ match_by_title
      (supernote_tasks.filter (fun t => ¬ optMem
        (detectStep1 apple_by_id supernote_by_id db
          ⟨[], [], [], db, fresh0⟩).matchedSupernote t.supernote_id))
      (apple_tasks.filter (fun t => ¬ optMem
        (detectStep1 apple_by_id supernote_by_id db
          ⟨[], [], [], db, fresh0⟩).matchedApple t.apple_id)),
      p.2 ≠ some aid := by
    intro p hp hcon
    obtain ⟨sn, hsn, a, ha, hpa, htt⟩ := match_by_title_mem hp
    have hsn' : sn ∈ supernote_tasks := (List.mem_filter.mp hsn).1
    have ha' : a ∈ apple_tasks := (List.mem_filter.mp ha).1
    have hac : a = c := hunique a ha' (hpa ▸ hcon)
    exact hnotitle sn hsn' ((hac ▸ htt).symm)
  obtain ⟨h2a, h2d⟩ := detectStep2_preserves env hmapA _ _ hpairs h1a
    (fun r hr => hnorec r (by rw [h1d] at hr; exact hr))
  have h3hyp : ∀ t ∈ apple_tasks, t.apple_id = some aid →
      should_skip_old_completed_task env.nowUtc t false = true := by
    intro t ht hta
    rw [hunique t ht hta]
    exact hskipc
  have h3a := detectStep3Apple_preserves env apple_tasks _ h3hyp h2a
  have h3s := detectStep3Supernote_preserves env supernote_tasks _ hsnone h3a
  obtain ⟨-, -, hdb3a, -⟩ := detectStep3Apple_state env apple_tasks
    (detectStep2 env apple_by_id supernote_by_id
      (match_by_title
        (supernote_tasks.filter (fun t => ¬ optMem
          (detectStep1 apple_by_id supernote_by_id db
            ⟨[], [], [], db, fresh0⟩).matchedSupernote t.supernote_id))
        (apple_tasks.filter (fun t => ¬ optMem
          (detectStep1 apple_by_id supernote_by_id db
            ⟨[], [], [], db, fresh0⟩).matchedApple t.apple_id)))
      (detectStep1 apple_by_id supernote_by_id db ⟨[], [], [], db, fresh0⟩))
  obtain ⟨-, -, hdb3s, -⟩ := detectStep3Supernote_state env supernote_tasks
    (detectStep3Apple env apple_tasks
      (detectStep2 env apple_by_id supernote_by_id
        (match_by_title
          (supernote_tasks.filter (fun t => ¬ optMem
            (detectStep1 apple_by_id supernote_by_id db
              ⟨[], [], [], db, fresh0⟩).matchedSupernote t.supernote_id))
          (apple_tasks.filter (fun t => ¬ optMem
            (detectStep1 apple_by_id supernote_by_id db
              ⟨[], [], [], db, fresh0⟩).matchedApple t.apple_id)))
        (detectStep1 apple_by_id supernote_by_id db ⟨[], [], [], db, fresh0⟩)))
  constructor
  · rw [hD]
    exact h3s
  · rw [hD]
    show ∀ r ∈ (detectStep3Supernote env supernote_tasks
      (detectStep3Apple env apple_tasks _)).db, r.apple_id ≠ some aid
    rw [hdb3s, hdb3a]
    exact h2d

/-- Witness for the corrected C8: the old completed task `w8apple`,
unpaired and sharing no title, is referenced by no action and no record of
the run. -/
theorem old_completed_unpaired_untouched_witness :
    w8apple.completed = true ∧
    (∀ act ∈ (detect_changes w8env 0 [w8sn] [w8apple]
        [(s2p "S1", w8sn)] [(s2p "A8", w8apple)] []).actions,
      act.task.apple_id ≠ some (s2p "A8")) ∧
    (∀ r ∈ (detect_changes w8env 0 [w8sn] [w8apple]
        [(s2p "S1", w8sn)] [(s2p "A8", w8apple)] []).db,
      r.apple_id ≠ some (s2p "A8")) := by
  refine ⟨rfl, ?_⟩
  exact old_completed_unpaired_untouched w8env 0 [w8sn] [w8apple]
    [(s2p "S1", w8sn)] [(s2p "A8", w8apple)] [] w8apple (s2p "A8")
    ⟨8640000, none⟩ (List.mem_cons_self ..) rfl rfl (by decide) rfl
    (by intro r h; cases h) (by decide) (by decide) (by decide) (by decide)
    (by decide)

end SyncSpec
